import Mathlib

/-!
Verification development for the BiasZero anonymizer core
(`anonymizer_module.py`).  The Python code is shallowly embedded:

* Python values are modelled by the inductive type `Val`
  (floats do not occur in any verified property and are omitted);
* Python dicts are association lists with unique keys, accessed through
  `dlookup` / `dset` / `dpop`, whose semantics mirror CPython dict
  operations (in-place overwrite keeps position, new keys append);
* the mutable instance state (`self._mapping`, `self._counters`) is the
  structure `MState`, threaded explicitly;
* operations that can raise a Python exception return `Option`
  (`none` models an uncaught exception);
* external stdlib primitives that the module calls but does not define
  (SHA-256 hex digests, `ast.literal_eval`, the `re` substitutions and
  `re.findall`) are fields of the parameter structure `Sem`: each field
  documents exactly the call it stands for.  All verified properties hold
  for every instantiation of `Sem`.
-/

/-- Model of a Python value as used by the anonymizer module. -/
inductive Val where
  | vnone : Val
  | vbool : Bool → Val
  | vint : Int → Val
  | vstr : String → Val
  | vlist : List Val → Val
  | vdict : List (String × Val) → Val

/-- Dict lookup: value of the first entry with the given key. -/
def dlookup {α : Type} : List (String × α) → String → Option α
  | [], _ => none
  | (k, v) :: r, key => if k = key then some v else dlookup r key

/-- Dict assignment `d[key] = x`: overwrite in place, else append. -/
def dset {α : Type} : List (String × α) → String → α → List (String × α)
  | [], key, x => [(key, x)]
  | (k, v) :: r, key, x => if k = key then (key, x) :: r else (k, v) :: dset r key x

/-- Dict `d.pop(key, None)`: drop the first entry with the given key. -/
def dpop {α : Type} : List (String × α) → String → List (String × α)
  | [], _ => []
  | (k, v) :: r, key => if k = key then r else (k, v) :: dpop r key

/-- Dict key membership `key in d`. -/
def dmem {α : Type} (d : List (String × α)) (k : String) : Bool :=
  (dlookup d k).isSome

mutual
/-- Python `repr` of a value (string escaping is not reproduced; `repr`
of strings feeds no verified property). -/
def pyRepr : Val → String
  | Val.vnone => "None"
  | Val.vbool b => if b then "True" else "False"
  | Val.vint n => toString n
  | Val.vstr s => "\x27" ++ s ++ "\x27"
  | Val.vlist xs => "[" ++ pyReprList xs ++ "]"
  | Val.vdict kvs => "\x7b" ++ pyReprDict kvs ++ "\x7d"

def pyReprList : List Val → String
  | [] => ""
  | [x] => pyRepr x
  | x :: r => pyRepr x ++ ", " ++ pyReprList r

def pyReprDict : List (String × Val) → String
  | [] => ""
  | [(k, v)] => "\x27" ++ k ++ "\x27: " ++ pyRepr v
  | (k, v) :: r => "\x27" ++ k ++ "\x27: " ++ pyRepr v ++ ", " ++ pyReprDict r
end

/-- Python `str(v)`. -/
def pyStr : Val → String
  | Val.vstr s => s
  | v => pyRepr v

/-- Python truthiness `bool(v)`. -/
def pyTruthy : Val → Bool
  | Val.vnone => false
  | Val.vbool b => b
  | Val.vint n => n != 0
  | Val.vstr s => s != ""
  | Val.vlist xs => !xs.isEmpty
  | Val.vdict kvs => !kvs.isEmpty

/-- Python `str.strip()` (ASCII whitespace; implemented over the
character list so that it evaluates inside the kernel). -/
def pyStrip (s : String) : String :=
  String.mk (((s.toList.dropWhile Char.isWhitespace).reverse.dropWhile
    Char.isWhitespace).reverse)

/-- Python `str.lower()` (ASCII). -/
def pyLower (s : String) : String :=
  String.mk (s.toList.map Char.toLower)

/-- Python `str.upper()` (ASCII). -/
def pyUpper (s : String) : String :=
  String.mk (s.toList.map Char.toUpper)

/-- Python `s[:n]`. -/
def pyTake (s : String) (n : Nat) : String :=
  String.mk (s.toList.take n)

/-- Occurrence check of `needle` inside `hay`. -/
def subListCheck (needle : List Char) : List Char → Bool
  | [] => needle.isEmpty
  | c :: rest => needle.isPrefixOf (c :: rest) || subListCheck needle rest

/-- Substring test used for `needle in s` on Python strings. -/
def strHasSub (s sub : String) : Bool :=
  subListCheck sub.toList s.toList

/-- Python `str.startswith`. -/
def strStarts (s pre : String) : Bool :=
  pre.toList.isPrefixOf s.toList

/-- Splitting worker for `pySplit`; the fuel is the haystack length, so
it never runs out for non-empty separators. -/
def splitList (sep : List Char) : Nat → List Char → List Char → List (List Char)
  | _, [], acc => [acc.reverse]
  | 0, hay, acc => [acc.reverse ++ hay]
  | fuel + 1, c :: rest, acc =>
      if sep.isPrefixOf (c :: rest) ∧ sep ≠ [] then
        acc.reverse :: splitList sep fuel ((c :: rest).drop sep.length) []
      else splitList sep fuel rest (c :: acc)

/-- Python `s.split(sep)` for a non-empty separator. -/
def pySplit (s sep : String) : List String :=
  (splitList sep.toList s.toList.length s.toList []).map String.mk

/-- Joining worker for `pyJoin`. -/
def joinList (sep : List Char) : List (List Char) → List Char
  | [] => []
  | [x] => x
  | x :: rest => x ++ sep ++ joinList sep rest

/-- Python `sep.join(parts)`. -/
def pyJoin (sep : String) (parts : List String) : String :=
  String.mk (joinList sep.toList (parts.map String.toList))

/-- Python digit-run check for `int(<str>)`: digits possibly separated by
single underscores, e.g. `10`, `1_0`; rejects `_1`, `1_`, `1__0`. -/
def digitsRest : List Char → Bool
  | [] => true
  | '_' :: c :: r => c.isDigit && digitsRest r
  | '_' :: [] => false
  | c :: r => c.isDigit && digitsRest r

/-- Numeric value of a digit list, ignoring underscores. -/
def digitsVal (cs : List Char) : Nat :=
  (cs.filter (fun c => c != '_')).foldl (fun a c => a * 10 + (c.toNat - 48)) 0

/-- Python `int(s)` on a string: optional surrounding whitespace,
optional sign, digit run (unicode digit forms are not reproduced). -/
def pyIntOfString (s : String) : Option Int :=
  match (pyStrip s).toList with
  | '+' :: ds => if ds ≠ [] ∧ digitsRest ('0' :: ds) ∧ (ds.headD '0').isDigit
                 then some (digitsVal ds) else none
  | '-' :: ds => if ds ≠ [] ∧ digitsRest ('0' :: ds) ∧ (ds.headD '0').isDigit
                 then some (-(digitsVal ds : Int)) else none
  | ds => if ds ≠ [] ∧ digitsRest ('0' :: ds) ∧ (ds.headD '0').isDigit
          then some (digitsVal ds) else none

/-- Python `int(v)`; `none` models a raised exception
(the module always catches it). -/
def pyToInt : Val → Option Int
  | Val.vint n => some n
  | Val.vbool b => some (if b then 1 else 0)
  | Val.vstr s => pyIntOfString s
  | _ => none

/-- `k in v` for the string needles used by the module; `none` models
`TypeError` (membership on `None`/int/bool). -/
def pyContains (v : Val) (k : String) : Option Bool :=
  match v with
  | Val.vdict kvs => some (dmem kvs k)
  | Val.vstr s => some (strHasSub s k)
  | Val.vlist xs =>
      some (xs.any (fun x => match x with | Val.vstr t => t = k | _ => false))
  | _ => none

/-- `v.get(k, d)`; `none` models `AttributeError` on non-dicts. -/
def pyGetD (v : Val) (k : String) (d : Val) : Option Val :=
  match v with
  | Val.vdict kvs => some ((dlookup kvs k).getD d)
  | _ => none

/-- `v[k] = x`; `none` models the `TypeError` raised on non-dicts. -/
def pySet (v : Val) (k : String) (x : Val) : Option Val :=
  match v with
  | Val.vdict kvs => some (Val.vdict (dset kvs k x))
  | _ => none

/-- `v.pop(k, None)` (result value discarded by the module);
`none` models `AttributeError` on non-dicts. -/
def pyPop (v : Val) (k : String) : Option Val :=
  match v with
  | Val.vdict kvs => some (Val.vdict (dpop kvs k))
  | _ => none

/-- `for e in v`: lists iterate elements, strings iterate one-character
strings, dicts iterate keys; `none` models `TypeError` on the rest. -/
def pyIter (v : Val) : Option (List Val) :=
  match v with
  | Val.vlist xs => some xs
  | Val.vstr s => some (s.toList.map (fun c => Val.vstr (String.mk [c])))
  | Val.vdict kvs => some (kvs.map (fun kv => Val.vstr kv.1))
  | _ => none

/-- External stdlib primitives used by the module.  Every verified
property is quantified over this structure, so nothing depends on the
concrete behaviour of these functions beyond their being functions. -/
structure Sem where
  /-- `hashlib.sha256(<bytes>).hexdigest()` of a string. -/
  sha256hex : String → String
  /-- `ast.literal_eval`; `none` models a raised exception. -/
  parseLit : String → Option Val
  /-- `re.sub(r"[A-Za-z0-9._%+-]+@[A-Za-z0-9.-]+|\d{5,}", "", s)`
  applied to job titles. -/
  reSubJobTitle : String → String
  /-- `re.sub(r"[A-Za-z0-9._%+-]+@[A-Za-z0-9.-]+", "[email]", s)`. -/
  reSubEmail : String → String
  /-- `re.sub(r"\+?\d[\d\s\-()]{6,}", "[phone]", s)`. -/
  reSubPhone : String → String
  /-- `re.sub(r"#\d+|\d{6,}", "", s)` applied to certification names. -/
  reSubCertName : String → String
  /-- `re.sub(r"\bI\b|\bme\b|\bmy\b", "[person]", s, flags=IGNORECASE)`. -/
  reSubPerson : String → String
  /-- `re.sub(r"#\d+", "", s)` applied to project titles. -/
  reSubHashNum : String → String
  /-- `re.findall(r"[A-Za-z0-9]+", s)`. -/
  reFindWords : String → List String

/-- Constructor arguments of `Anonymizer` (the unused-on-pure-paths
`mapping_path` is omitted: it feeds only the file write in
`anonymize_dataset`, which performs I/O and is outside the embedding). -/
structure Config where
  reversible : Bool
  preserveNumericFeatures : Bool
  idPfx : String
  salt : String

/-- Mutable instance state: `self._mapping` (category →
(normalized original → token)) and `self._counters` (prefix → count). -/
structure MState where
  mapping : List (String × List (String × String))
  counters : List (String × Nat)

/-- The state built by `Anonymizer.__init__`. -/
def initMState : MState :=
  { mapping := [("name", []), ("email", []), ("phone", []), ("university", []),
                ("company", []), ("technology", []), ("project_title", []), ("location", [])],
    counters := [("ORG", 0), ("UNIV", 0), ("TECH", 0), ("PROJ", 0)] }

/-- `safe_parse`: strings go through `ast.literal_eval`, falling back to
the original string when parsing raises; non-strings pass through. -/
def safeParse (parseLit : String → Option Val) (v : Val) : Val :=
  match v with
  | Val.vstr s =>
      match parseLit s with
      | some r => r
      | none => Val.vstr s
  | _ => v

/-- `_hash_text(text, salt)` = SHA-256 hex digest of `salt + text`. -/
def hashText (sem : Sem) (text : String) (salt : String) : String :=
  sem.sha256hex (salt ++ text)

/-- `_get_or_create_token(category, original, prefix)`.
`none` models the `KeyError` raised by
`self._mapping[category][original_norm] = token` when `category` is not a
key of the mapping table. -/
def getOrCreateToken (sem : Sem) (cfg : Config) (st : MState)
    (category : String) (original : Val) (pfx : String) :
    Option (String × MState) :=
  let origNorm := pyStrip (pyStr original)
  if origNorm = "" then some (pfx ++ "_UNKNOWN", st)
  else if cfg.reversible then
    match dlookup ((dlookup st.mapping category).getD []) origNorm with
    | some tok => some (tok, st)
    | none =>
        let tok := pfx ++ "_" ++ pyTake (hashText sem origNorm cfg.salt) 12
        match dlookup st.mapping category with
        | some m =>
            some (tok, { st with mapping := dset st.mapping category (dset m origNorm tok) })
        | none => none
  else
    let c := (dlookup st.counters pfx).getD 0 + 1
    some (pfx ++ "_" ++ toString c, { st with counters := dset st.counters pfx c })

/-- `_mask_email`. -/
def maskEmail (sem : Sem) (cfg : Config) (st : MState) (v : Val) :
    Option (String × MState) :=
  let email := pyStr v
  if !(strHasSub email "@") then some ("anon@example.com", st)
  else
    let parts := pySplit email "@"
    let locpart := parts.headD ""
    let domain := pyJoin "@" parts.tail
    if cfg.reversible then
      match getOrCreateToken sem cfg st "email" (Val.vstr email) "EMAIL" with
      | some (tok, st') => some (tok ++ "@example.com", st')
      | none => none
    else
      some ("anon+" ++ pyTake (hashText sem locpart cfg.salt) 8 ++ "@" ++
            ((pySplit domain ".").getLastD domain) ++ ".example", st)

/-- `_mask_phone`. -/
def maskPhone (sem : Sem) (cfg : Config) (st : MState) (v : Val) :
    Option (String × MState) :=
  let phone := pyStr v
  let digits := phone.toList.filter Char.isDigit
  let masked :=
    if digits.length ≥ 4 then
      String.mk (List.replicate (digits.length - 4) 'X' ++ digits.drop (digits.length - 4))
    else
      String.mk (List.replicate (max 3 digits.length) 'X')
  if cfg.reversible then
    getOrCreateToken sem cfg st "phone" (Val.vstr phone) "PHONE"
  else
    some (masked, st)

/-- `_anonymize_name`. -/
def anonymizeName (sem : Sem) (cfg : Config) (st : MState) (v : Val) :
    Option (String × MState) :=
  let name := pyStrip (pyStr v)
  if name = "" then some ("", st)
  else if cfg.reversible then
    getOrCreateToken sem cfg st "name" (Val.vstr name) "CAND"
  else
    some (cfg.idPfx ++ pyTake (hashText sem name cfg.salt) 8, st)

/-- `_anonymize_location`. -/
def anonymizeLocation (sem : Sem) (cfg : Config) (st : MState) (v : Val) :
    Option (String × MState) :=
  let loc := pyStrip (pyStr v)
  if loc = "" then some ("UNKNOWN", st)
  else
    let cat := if strHasSub (pyLower loc) "remote" then "remote" else "onsite"
    if cfg.reversible then
      match getOrCreateToken sem cfg st "location" (Val.vstr loc) "LOC" with
      | some (tok, st') => some (pyUpper cat ++ "_" ++ tok, st')
      | none => none
    else
      some (pyUpper cat ++ "_" ++ pyTake (hashText sem loc cfg.salt) 8, st)

/-- `_clean_project_title`. -/
def cleanProjectTitle (sem : Sem) (cfg : Config) (st : MState) (title : Val) :
    Option (String × MState) :=
  let t := pyStrip (sem.reSubHashNum (pyStr title))
  if cfg.reversible then
    getOrCreateToken sem cfg st "project_title" (Val.vstr t) "PROJ"
  else
    let short := pyJoin "_" ((sem.reFindWords t).take 5)
    some ("PROJ_" ++ pyTake (hashText sem short cfg.salt) 8, st)

/-- `_tokenize_technologies`. -/
def tokenizeTechnologies (sem : Sem) (cfg : Config) (st : MState) :
    List Val → Option (List String × MState)
  | [] => some ([], st)
  | t :: rest =>
      let tclean := pyLower (pyStrip (pyStr t))
      if tclean = "" then tokenizeTechnologies sem cfg st rest
      else if cfg.reversible then
        match getOrCreateToken sem cfg st "technology" (Val.vstr tclean) "TECH" with
        | some (tok, st₁) =>
            match tokenizeTechnologies sem cfg st₁ rest with
            | some (toks, st₂) => some (tok :: toks, st₂)
            | none => none
        | none => none
      else
        match tokenizeTechnologies sem cfg st rest with
        | some (toks, st₁) =>
            some (("TECH_" ++ pyTake (hashText sem tclean cfg.salt) 6) :: toks, st₁)
        | none => none

/-- State-threading map over entry lists (the `for e in entries` loops). -/
def mapEntries (f : MState → Val → Option (Val × MState)) :
    MState → List Val → Option (List Val × MState)
  | st, [] => some ([], st)
  | st, e :: rest =>
      match f st e with
      | some (e', st₁) =>
          match mapEntries f st₁ rest with
          | some (rest', st₂) => some (e' :: rest', st₂)
          | none => none
      | none => none

/-- Default sub-field list of `anonymize_personal_info`. -/
def defaultPersonalFields : List String :=
  ["name", "contact_email", "contact_phone", "age", "gender", "location"]

/-- Age bucketing of `anonymize_personal_info` (the `try int(...)`
block); extracted as a named function for the statements below. -/
def maskAgeVal (v : Val) : Val :=
  match pyToInt v with
  | some age =>
      Val.vstr (if age ≤ 25 then "18-25"
                else if age ≤ 35 then "26-35"
                else if age ≤ 45 then "36-45"
                else "46+")
  | none => Val.vstr "UNKNOWN"

/-- The `name` step of `anonymize_personal_info`. -/
def piName (sem : Sem) (cfg : Config) (ftm : List String) (st : MState)
    (out : List (String × Val)) : Option (List (String × Val) × MState) :=
  if dmem out "name" && ftm.contains "name" then
    match anonymizeName sem cfg st ((dlookup out "name").getD (Val.vstr "")) with
    | some (nm, st') => some (dset out "name" (Val.vstr nm), st')
    | none => none
  else some (out, st)

/-- The `contact_email` step of `anonymize_personal_info`. -/
def piEmail (sem : Sem) (cfg : Config) (ftm : List String) (st : MState)
    (out : List (String × Val)) : Option (List (String × Val) × MState) :=
  if dmem out "contact_email" && ftm.contains "contact_email" then
    match maskEmail sem cfg st ((dlookup out "contact_email").getD (Val.vstr "")) with
    | some (em, st') => some (dset out "contact_email" (Val.vstr em), st')
    | none => none
  else some (out, st)

/-- The `contact_phone` step of `anonymize_personal_info`. -/
def piPhone (sem : Sem) (cfg : Config) (ftm : List String) (st : MState)
    (out : List (String × Val)) : Option (List (String × Val) × MState) :=
  if dmem out "contact_phone" && ftm.contains "contact_phone" then
    match maskPhone sem cfg st ((dlookup out "contact_phone").getD (Val.vstr "")) with
    | some (ph, st') => some (dset out "contact_phone" (Val.vstr ph), st')
    | none => none
  else some (out, st)

/-- The `age` step of `anonymize_personal_info` (never raises: the
`try` swallows the conversion failure). -/
def piAge (ftm : List String) (out : List (String × Val)) : List (String × Val) :=
  if dmem out "age" && ftm.contains "age" then
    dset out "age" (maskAgeVal ((dlookup out "age").getD (Val.vint 0)))
  else out

/-- The `gender` step of `anonymize_personal_info`. -/
def piGender (ftm : List String) (out : List (String × Val)) : List (String × Val) :=
  if dmem out "gender" && ftm.contains "gender" then
    dset out "gender" (Val.vstr "undisclosed")
  else out

/-- The `location` step of `anonymize_personal_info`. -/
def piLocation (sem : Sem) (cfg : Config) (ftm : List String) (st : MState)
    (out : List (String × Val)) : Option (List (String × Val) × MState) :=
  if dmem out "location" && ftm.contains "location" then
    match anonymizeLocation sem cfg st ((dlookup out "location").getD (Val.vstr "")) with
    | some (lc, st') => some (dset out "location" (Val.vstr lc), st')
    | none => none
  else some (out, st)

/-- `anonymize_personal_info`. -/
def anonymizePersonalInfo (sem : Sem) (cfg : Config) (st : MState)
    (personalField : Option Val) (fieldsToMask : Option (List String)) :
    Option (Val × MState) :=
  let personal := match personalField with
    | none => Val.vdict []
    | some v => safeParse sem.parseLit v
  match personal with
  | Val.vdict kvs =>
      let ftm := match fieldsToMask with
        | none => defaultPersonalFields
        | some l => if l.isEmpty then defaultPersonalFields else l
      match piName sem cfg ftm st kvs with
      | some (o₁, st₁) =>
          match piEmail sem cfg ftm st₁ o₁ with
          | some (o₂, st₂) =>
              match piPhone sem cfg ftm st₂ o₂ with
              | some (o₃, st₃) =>
                  let o₄ := piAge ftm o₃
                  let o₅ := piGender ftm o₄
                  match piLocation sem cfg ftm st₃ o₅ with
                  | some (o₆, st₄) => some (Val.vdict o₆, st₄)
                  | none => none
              | none => none
          | none => none
      | none => none
  | _ => some (Val.vdict [], st)

/-- One education entry of `anonymize_education`. -/
def eduEntry (sem : Sem) (cfg : Config) (st : MState) (e : Val) :
    Option (Val × MState) :=
  match pyContains e "university" with
  | none => none
  | some hasUni =>
      let step₁ : Option (Val × MState) :=
        if hasUni then
          match pyGetD e "university" (Val.vstr "") with
          | none => none
          | some uni =>
              if pyTruthy uni then
                match getOrCreateToken sem cfg st "university" uni "UNIV" with
                | some (tok, st') =>
                    match pySet e "university" (Val.vstr tok) with
                    | some e' => some (e', st')
                    | none => none
                | none => none
              else
                match pySet e "university" (Val.vstr "UNIV_UNKNOWN") with
                | some e' => some (e', st)
                | none => none
        else some (e, st)
      match step₁ with
      | none => none
      | some (e₁, st₁) =>
          if cfg.preserveNumericFeatures then some (e₁, st₁)
          else
            match pyPop e₁ "grade" with
            | none => none
            | some e₂ =>
                match pyPop e₂ "year" with
                | none => none
                | some e₃ => some (e₃, st₁)

/-- `anonymize_education`. -/
def anonymizeEducation (sem : Sem) (cfg : Config) (st : MState)
    (field? : Option Val) : Option (Val × MState) :=
  let education := match field? with
    | none => Val.vdict []
    | some v => safeParse sem.parseLit v
  match education with
  | Val.vdict out =>
      match pyIter ((dlookup out "entries").getD (Val.vlist [])) with
      | none => none
      | some entries =>
          match mapEntries (eduEntry sem cfg) st entries with
          | some (newEntries, st') =>
              some (Val.vdict (dset out "entries" (Val.vlist newEntries)), st')
          | none => none
  | _ => some (Val.vdict [], st)

/-- One experience entry of `anonymize_experience`. -/
def expEntry (sem : Sem) (cfg : Config) (st : MState) (e : Val) :
    Option (Val × MState) :=
  match pyContains e "company" with
  | none => none
  | some hasComp =>
      let step₁ : Option (Val × MState) :=
        if hasComp then
          match pyGetD e "company" (Val.vstr "") with
          | none => none
          | some comp =>
              if pyTruthy comp then
                match getOrCreateToken sem cfg st "company" comp "ORG" with
                | some (tok, st') =>
                    match pySet e "company" (Val.vstr tok) with
                    | some e' => some (e', st')
                    | none => none
                | none => none
              else
                match pySet e "company" (Val.vstr "ORG_UNKNOWN") with
                | some e' => some (e', st)
                | none => none
        else some (e, st)
      match step₁ with
      | none => none
      | some (e₁, st₁) =>
          match pyContains e₁ "job_title" with
          | none => none
          | some hasJT =>
              if hasJT then
                match pyGetD e₁ "job_title" Val.vnone with
                | none => none
                | some jt =>
                    match pySet e₁ "job_title" (Val.vstr (sem.reSubJobTitle (pyStr jt))) with
                    | some e₂ => some (e₂, st₁)
                    | none => none
              else some (e₁, st₁)

/-- `anonymize_experience`. -/
def anonymizeExperience (sem : Sem) (cfg : Config) (st : MState)
    (field? : Option Val) : Option (Val × MState) :=
  let experience := match field? with
    | none => Val.vdict []
    | some v => safeParse sem.parseLit v
  match experience with
  | Val.vdict out =>
      match pyIter ((dlookup out "entries").getD (Val.vlist [])) with
      | none => none
      | some entries =>
          match mapEntries (expEntry sem cfg) st entries with
          | some (newEntries, st') =>
              some (Val.vdict (dset out "entries" (Val.vlist newEntries)), st')
          | none => none
  | _ => some (Val.vdict [], st)

/-- Stages two and three of a project entry (`description` scrubbing
and `technologies` tokenization); `st₁` is the state after the title
stage, `e₁` the entry after the title stage. -/
def projDescTech (sem : Sem) (cfg : Config) (st₁ : MState) (e₁ : Val) :
    Option (Val × MState) :=
  match pyContains e₁ "description" with
  | none => none
  | some hasDesc =>
      let step₂ : Option Val :=
        if hasDesc then
          match pyGetD e₁ "description" (Val.vstr "") with
          | none => none
          | some d =>
              let desc := sem.reSubPhone (sem.reSubEmail (pyStr d))
              let desc := if desc.length > 500 then pyTake desc 500 ++ "..." else desc
              pySet e₁ "description" (Val.vstr desc)
        else some e₁
      match step₂ with
      | none => none
      | some e₂ =>
          match pyContains e₂ "technologies" with
          | none => none
          | some hasTech =>
              if hasTech then
                match pyGetD e₂ "technologies" (Val.vlist []) with
                | none => none
                | some techs =>
                    let techsList := match techs with
                      | Val.vstr s =>
                          (((pySplit s "|").map pyStrip).filter
                            (fun t => t ≠ "")).map Val.vstr
                      | Val.vlist xs => xs
                      | _ => []
                    match tokenizeTechnologies sem cfg st₁ techsList with
                    | some (toks, st₂) =>
                        match pySet e₂ "technologies" (Val.vlist (toks.map Val.vstr)) with
                        | some e₃ => some (e₃, st₂)
                        | none => none
                    | none => none
              else some (e₂, st₁)

/-- One project entry of `anonymize_projects`. -/
def projEntry (sem : Sem) (cfg : Config) (st : MState) (e : Val) :
    Option (Val × MState) :=
  match pyContains e "title" with
  | none => none
  | some hasTitle =>
      let step₁ : Option (Val × MState) :=
        if hasTitle then
          match pyGetD e "title" (Val.vstr "") with
          | none => none
          | some t =>
              match cleanProjectTitle sem cfg st t with
              | some (tok, st') =>
                  match pySet e "title" (Val.vstr tok) with
                  | some e' => some (e', st')
                  | none => none
              | none => none
        else some (e, st)
      match step₁ with
      | none => none
      | some (e₁, st₁) => projDescTech sem cfg st₁ e₁

/-- `anonymize_projects`. -/
def anonymizeProjects (sem : Sem) (cfg : Config) (st : MState)
    (field? : Option Val) : Option (Val × MState) :=
  let projects := match field? with
    | none => Val.vdict []
    | some v => safeParse sem.parseLit v
  match projects with
  | Val.vdict out =>
      match pyIter ((dlookup out "entries").getD (Val.vlist [])) with
      | none => none
      | some entries =>
          match mapEntries (projEntry sem cfg) st entries with
          | some (newEntries, st') =>
              some (Val.vdict (dset out "entries" (Val.vlist newEntries)), st')
          | none => none
  | _ => some (Val.vdict [], st)

/-- One certification entry of `anonymize_certifications` (no state). -/
def certEntry (sem : Sem) (c : Val) : Option Val :=
  match pyPop c "issuer" with
  | none => none
  | some c₁ =>
      match pyPop c₁ "id" with
      | none => none
      | some c₂ =>
          match pyContains c₂ "name" with
          | none => none
          | some hasName =>
              if hasName then
                match pyGetD c₂ "name" Val.vnone with
                | none => none
                | some n => pySet c₂ "name" (Val.vstr (sem.reSubCertName (pyStr n)))
              else some c₂

/-- `anonymize_certifications`. -/
def anonymizeCertifications (sem : Sem) (cfg : Config) (st : MState)
    (field? : Option Val) : Option (Val × MState) :=
  let certs := match field? with
    | none => Val.vdict []
    | some v => safeParse sem.parseLit v
  match certs with
  | Val.vdict out =>
      match pyIter ((dlookup out "entries").getD (Val.vlist [])) with
      | none => none
      | some entries =>
          match entries.mapM (certEntry sem) with
          | some newEntries =>
              some (Val.vdict (dset out "entries" (Val.vlist newEntries)), st)
          | none => none
  | _ => some (Val.vdict [], st)

/-- Soft-skill sanitization of `anonymize_skills`. -/
def softSkill (sem : Sem) (s : Val) : Val :=
  let sc := sem.reSubPerson (pyStr s)
  Val.vstr (if sc.length > 120 then pyTake sc 120 ++ "..." else sc)

/-- `anonymize_skills`. -/
def anonymizeSkills (sem : Sem) (cfg : Config) (st : MState)
    (field? : Option Val) : Option (Val × MState) :=
  let skills := match field? with
    | none => Val.vdict []
    | some v => safeParse sem.parseLit v
  match skills with
  | Val.vdict out =>
      let techs := (dlookup out "technical").getD (Val.vlist [])
      let techsList := match techs with
        | Val.vlist xs => xs
        | t => [t]
      match tokenizeTechnologies sem cfg st techsList with
      | some (toks, st₁) =>
          let softs := (dlookup out "soft").getD (Val.vlist [])
          let softsList := match softs with
            | Val.vlist xs => xs
            | s => [s]
          let newSoft := softsList.map (softSkill sem)
          some (Val.vdict (dset (dset out "technical" (Val.vlist (toks.map Val.vstr)))
                             "soft" (Val.vlist newSoft)), st₁)
      | none => none
  | _ => some (Val.vdict [], st)

/-- Default whitelist of `anonymize_record`. -/
def defaultDetectedFields : List String :=
  ["personal_info.name", "personal_info.contact_email", "personal_info.contact_phone",
   "personal_info.age", "personal_info.gender", "personal_info.location",
   "education.university", "experience.company", "projects.title", "projects.description",
   "projects.technologies", "skills.technical"]

/-- `anonymize_record`. -/
def anonymizeRecord (sem : Sem) (cfg : Config) (st : MState)
    (record : List (String × Val)) (detectedFields : Option (List String)) :
    Option (List (String × Val) × MState) :=
  let detected := match detectedFields with
    | none => defaultDetectedFields
    | some l => if l.isEmpty then defaultDetectedFields else l
  let ftm := (detected.filter (fun f => strStarts f "personal_info")).map
    (fun f => (pySplit f ".").getLastD f)
  match anonymizePersonalInfo sem cfg st (dlookup record "personal_info") (some ftm) with
  | none => none
  | some (p, st₁) =>
      let rec₁ := dset record "personal_info" p
      match anonymizeEducation sem cfg st₁ (dlookup rec₁ "education") with
      | none => none
      | some (ed, st₂) =>
          let rec₂ := dset rec₁ "education" ed
          match anonymizeExperience sem cfg st₂ (dlookup rec₂ "experience") with
          | none => none
          | some (ex, st₃) =>
              let rec₃ := dset rec₂ "experience" ex
              match anonymizeProjects sem cfg st₃ (dlookup rec₃ "projects") with
              | none => none
              | some (pr, st₄) =>
                  let rec₄ := dset rec₃ "projects" pr
                  match anonymizeCertifications sem cfg st₄ (dlookup rec₄ "certifications") with
                  | none => none
                  | some (ce, st₅) =>
                      let rec₅ := dset rec₄ "certifications" ce
                      match anonymizeSkills sem cfg st₅ (dlookup rec₅ "skills") with
                      | none => none
                      | some (sk, st₆) =>
                          let rec₆ := dset rec₅ "skills" sk
                          let rec₇ :=
                            if cfg.preserveNumericFeatures then rec₆
                            else dpop (dpop (dpop rec₆ "raw_score") "bias_score") "bias_label"
                          some (rec₇, st₆)

/-- `anonymize_dataset` minus the reversible-mode mapping-file write
(file I/O is outside the embedding; the record processing is the fold
below, in input order). -/
def anonymizeDataset (sem : Sem) (cfg : Config) (st : MState)
    (data : List (List (String × Val))) (detectedFields : Option (List String)) :
    Option (List (List (String × Val)) × MState) :=
  match data with
  | [] => some ([], st)
  | r :: rest =>
      match anonymizeRecord sem cfg st r detectedFields with
      | none => none
      | some (r', st₁) =>
          match anonymizeDataset sem cfg st₁ rest detectedFields with
          | some (rs, st₂) => some (r' :: rs, st₂)
          | none => none

/-- The mapping categories written by the personal-info maskers. -/
def personalCats : List String := ["name", "email", "phone", "location"]

/-- The eight categories initialized by `Anonymizer.__init__`. -/
def categories8 : List String :=
  ["name", "email", "phone", "university", "company", "technology", "project_title", "location"]

/-- The six section keys assigned by `anonymize_record`. -/
def sectionKeys : List String :=
  ["personal_info", "education", "experience", "projects", "certifications", "skills"]

/-- Token stored for `(category, original)` in the mapping table. -/
def mlook (st : MState) (c o : String) : Option String :=
  match dlookup st.mapping c with
  | some m => dlookup m o
  | none => none

/-- The mapping table of `st'` extends that of `st`: no entry is ever
overwritten or removed. -/
def MonoSt (st st' : MState) : Prop :=
  ∀ c o tok, mlook st c o = some tok → mlook st' c o = some tok

/-- Two states agree on everything the non-personal-info sections can
observe: equal counters, and equal mapping sub-tables outside the four
categories written by the personal-info maskers. -/
def StAgree (s t : MState) : Prop :=
  s.counters = t.counters ∧
  ∀ c, ¬ c ∈ personalCats → dlookup s.mapping c = dlookup t.mapping c

/-- Lift a state relation to the `Option (value × state)` results used
across the embedding: related runs either both raise or both return,
with equal values and related result states. -/
def ORel {α : Type} (R : MState → MState → Prop) :
    Option (α × MState) → Option (α × MState) → Prop
  | none, none => True
  | some (a, s), some (b, t) => a = b ∧ R s t
  | _, _ => False

/-- Two `anonymize_record` runs agree on all five non-personal-info
sections of their outputs (or both raise). -/
def recAgree :
    Option (List (String × Val) × MState) →
    Option (List (String × Val) × MState) → Prop
  | none, none => True
  | some (r₁, _), some (r₂, _) =>
      dlookup r₁ "education" = dlookup r₂ "education" ∧
      dlookup r₁ "experience" = dlookup r₂ "experience" ∧
      dlookup r₁ "projects" = dlookup r₂ "projects" ∧
      dlookup r₁ "certifications" = dlookup r₂ "certifications" ∧
      dlookup r₁ "skills" = dlookup r₂ "skills"
  | _, _ => False

/-- Well-formed state: the mapping table has (at least) the eight
categories that `__init__` creates; every reachable state satisfies
this, and `KeyError` is impossible from such states. -/
def wfState (st : MState) : Bool :=
  categories8.all (fun c => (dlookup st.mapping c).isSome)

/-- Decimal digit list of a natural number (semantic counterpart of
`Nat.toDigitsCore`, used to reason about `toString`). -/
def decDigits (n : Nat) : List Char :=
  if h : n < 10 then [Nat.digitChar (n % 10)]
  else decDigits (n / 10) ++ [Nat.digitChar (n % 10)]
decreasing_by exact Nat.div_lt_self (by omega) (by omega)

/-- Evaluator of a decimal digit list. -/
def decVal (cs : List Char) : Nat :=
  cs.foldl (fun a c => 10 * a + (c.toNat - 48)) 0

/-- A concrete instantiation of the external primitives, used by the
closed witness and counterexample statements (the identity function
stands in for the hex digest; only determinism matters). -/
def sem₀ : Sem :=
  { sha256hex := id, parseLit := fun _ => none,
    reSubJobTitle := id, reSubEmail := id, reSubPhone := id,
    reSubCertName := id, reSubPerson := id, reSubHashNum := id,
    reFindWords := fun _ => [] }

/-- An arbitrary second instance state, used to witness that the
non-reversible maskers do not read the mutable state. -/
def stAlt : MState :=
  { mapping := [("name", [("x", "CAND_y")])], counters := [("UNIV", 7)] }

/-- Non-reversible configuration with the constructor defaults. -/
def cfgNR : Config :=
  { reversible := false, preserveNumericFeatures := true, idPfx := "CAND_", salt := "" }

/-- Reversible configuration with the other constructor defaults. -/
def cfgR : Config :=
  { reversible := true, preserveNumericFeatures := true, idPfx := "CAND_", salt := "" }

/-! ### Association-list lemmas -/

theorem dlookup_dset {α : Type} (m : List (String × α)) (k : String) (v : α)
    (k' : String) :
    dlookup (dset m k v) k' = if k' = k then some v else dlookup m k' := by
  induction m with
  | nil =>
      by_cases h : k' = k
      · simp [dset, dlookup, h]
      · simp [dset, dlookup, h, Ne.symm h]
  | cons kv r ih =>
      obtain ⟨k₀, v₀⟩ := kv
      by_cases h₀ : k₀ = k
      · subst h₀
        by_cases h : k' = k₀
        · simp [dset, dlookup, h]
        · simp [dset, dlookup, h, Ne.symm h]
      · by_cases h : k' = k₀
        · subst h
          simp [dset, dlookup, h₀, fun hh : k' = k => h₀ (hh ▸ rfl)]
        · simp [dset, dlookup, h₀, h, Ne.symm h, ih]

theorem dlookup_dpop_ne {α : Type} (m : List (String × α)) (k k' : String)
    (h : k' ≠ k) : dlookup (dpop m k) k' = dlookup m k' := by
  induction m with
  | nil => simp [dpop]
  | cons kv r ih =>
      obtain ⟨k₀, v₀⟩ := kv
      by_cases h₀ : k₀ = k
      · subst h₀
        simp [dpop, dlookup, Ne.symm h]
      · by_cases h₁ : k₀ = k'
        · subst h₁
          simp [dpop, dlookup, h₀]
        · simp [dpop, dlookup, h₀, h₁, ih]

theorem dmem_dset {α : Type} (m : List (String × α)) (k : String) (v : α)
    (k' : String) :
    dmem (dset m k v) k' = (decide (k' = k) || dmem m k') := by
  by_cases h : k' = k <;> simp [dmem, dlookup_dset, h]

/-! ### Injectivity of the decimal rendering used for counter tokens -/

theorem decVal_append_digit (cs : List Char) (c : Char) :
    decVal (cs ++ [c]) = 10 * decVal cs + (c.toNat - 48) := by
  simp [decVal, List.foldl_append]

theorem digitChar_decode (r : Nat) (h : r < 10) :
    (Nat.digitChar r).toNat - 48 = r := by
  interval_cases r <;> decide

theorem decVal_decDigits (n : Nat) : decVal (decDigits n) = n := by
  induction n using Nat.strong_induction_on with
  | _ n ih =>
      by_cases h : n < 10
      · rw [decDigits]
        simp only [h, dif_pos]
        have : n % 10 = n := Nat.mod_eq_of_lt h
        simp [decVal, this, digitChar_decode n h]
      · rw [decDigits]
        simp only [h, dif_neg, not_false_iff]
        rw [decVal_append_digit]
        rw [ih (n / 10) (Nat.div_lt_self (by omega) (by omega))]
        rw [digitChar_decode (n % 10) (Nat.mod_lt _ (by omega))]
        omega

theorem toDigitsCore_eq_decDigits (fuel : Nat) :
    ∀ n ds, n < fuel →
      Nat.toDigitsCore 10 fuel n ds = decDigits n ++ ds := by
  induction fuel with
  | zero => intro n ds h; omega
  | succ fuel ih =>
      intro n ds h
      by_cases h10 : n < 10
      · have hdiv : n / 10 = 0 := Nat.div_eq_of_lt h10
        rw [decDigits]
        simp [Nat.toDigitsCore, hdiv, h10]
      · have hdiv : ¬ n / 10 = 0 := by omega
        have hlt : n / 10 < fuel := by
          have := Nat.div_lt_self (show 0 < n by omega) (show 1 < 10 by omega)
          omega
        rw [decDigits]
        simp only [Nat.toDigitsCore, hdiv, if_false, h10, dif_neg, not_false_iff]
        rw [ih (n / 10) _ hlt]
        simp

theorem natToString_eq_decDigits (n : Nat) :
    toString n = (decDigits n).asString := by
  show Nat.repr n = (decDigits n).asString
  unfold Nat.repr Nat.toDigits
  rw [toDigitsCore_eq_decDigits (n + 1) n [] (by omega)]
  simp

theorem natToString_inj {m n : Nat} (h : toString m = toString n) : m = n := by
  rw [natToString_eq_decDigits, natToString_eq_decDigits] at h
  have hd : decDigits m = decDigits n := by
    have := congrArg String.data h
    simpa [List.asString] using this
  have := congrArg decVal hd
  rwa [decVal_decDigits, decVal_decDigits] at this

theorem string_append_right_inj (p : String) {a b : String}
    (h : p ++ a = p ++ b) : a = b := by
  have := congrArg String.data h
  simp only [String.data_append] at this
  exact String.ext (List.append_cancel_left this)

/-! ### State relations -/

theorem monoRefl (st : MState) : MonoSt st st := fun _ _ _ h => h

theorem monoTrans {s t u : MState} (h₁ : MonoSt s t) (h₂ : MonoSt t u) :
    MonoSt s u := fun c o tok h => h₂ c o tok (h₁ c o tok h)

theorem stAgreeRefl (st : MState) : StAgree st st := ⟨rfl, fun _ _ => rfl⟩

theorem stAgreeSymm {s t : MState} (h : StAgree s t) : StAgree t s :=
  ⟨h.1.symm, fun c hc => (h.2 c hc).symm⟩

theorem stAgreeTrans {s t u : MState} (h₁ : StAgree s t) (h₂ : StAgree t u) :
    StAgree s u :=
  ⟨h₁.1.trans h₂.1, fun c hc => (h₁.2 c hc).trans (h₂.2 c hc)⟩

/-! ### `_get_or_create_token` lemmas -/

theorem mlook_update (st : MState) (cat : String) (m : List (String × String))
    (o' tokv : String) (c o : String) :
    mlook { st with mapping := dset st.mapping cat (dset m o' tokv) } c o =
      if c = cat then (if o = o' then some tokv else dlookup m o)
      else mlook st c o := by
  unfold mlook
  simp only [dlookup_dset]
  by_cases hc : c = cat
  · simp [hc, dlookup_dset]
  · simp [hc]

theorem got_mono (sem : Sem) (cfg : Config) (st : MState)
    (category : String) (original : Val) (pfx : String) (tok : String) (st' : MState)
    (h : getOrCreateToken sem cfg st category original pfx = some (tok, st')) :
    MonoSt st st' := by
  unfold getOrCreateToken at h
  by_cases h₁ : pyStrip (pyStr original) = ""
  · simp only [h₁, if_true, if_pos, Option.some.injEq, Prod.mk.injEq] at h
    rw [← h.2]
    exact monoRefl st
  · simp only [h₁, if_false, if_neg, not_false_iff] at h
    by_cases h₂ : cfg.reversible
    · simp only [h₂, if_true] at h
      cases hfound : dlookup ((dlookup st.mapping category).getD []) (pyStrip (pyStr original)) with
      | some t₀ =>
          simp only [hfound, Option.some.injEq, Prod.mk.injEq] at h
          rw [← h.2]
          exact monoRefl st
      | none =>
          simp only [hfound] at h
          cases hcat : dlookup st.mapping category with
          | none => simp [hcat] at h
          | some m =>
              simp only [hcat, Option.some.injEq, Prod.mk.injEq] at h
              rw [← h.2]
              intro c o t ht
              rw [mlook_update]
              by_cases hc : c = category
              · subst hc
                unfold mlook at ht
                rw [hcat] at ht
                have ht' : dlookup m o = some t := ht
                rw [hcat] at hfound
                simp only [Option.getD_some] at hfound
                by_cases ho : o = pyStrip (pyStr original)
                · subst ho
                  simp [hfound] at ht'
                · simp [ho, ht']
              · simp [hc, ht]
    · simp only [h₂, if_false, Bool.false_eq_true, Option.some.injEq, Prod.mk.injEq] at h
      rw [← h.2]
      intro c o t ht
      exact ht

theorem got_congr (sem : Sem) (cfg : Config) {s t : MState}
    (category : String) (original : Val) (pfx : String)
    (hcat : ¬ category ∈ personalCats) (hst : StAgree s t) :
    ORel StAgree (getOrCreateToken sem cfg s category original pfx)
      (getOrCreateToken sem cfg t category original pfx) := by
  obtain ⟨hcnt, hmap⟩ := hst
  have hm : dlookup t.mapping category = dlookup s.mapping category :=
    (hmap category hcat).symm
  unfold getOrCreateToken
  rw [hm, ← hcnt]
  by_cases h₁ : pyStrip (pyStr original) = ""
  · simp only [h₁, if_true, if_pos]
    exact ⟨rfl, hcnt, hmap⟩
  · simp only [h₁, if_false, if_neg, not_false_iff]
    by_cases h₂ : cfg.reversible
    · simp only [h₂, if_true]
      cases hfound : dlookup ((dlookup s.mapping category).getD []) (pyStrip (pyStr original)) with
      | some t₀ => exact ⟨rfl, hcnt, hmap⟩
      | none =>
          cases hc : dlookup s.mapping category with
          | none => trivial
          | some m =>
              refine ⟨rfl, rfl, fun c hcp => ?_⟩
              simp only [dlookup_dset]
              by_cases hcc : c = category
              · simp [hcc]
              · simp [hcc, hmap c hcp]
    · simp only [h₂, if_false, Bool.false_eq_true]
      exact ⟨rfl, rfl, hmap⟩

theorem got_effect_rev (sem : Sem) (cfg : Config) (st : MState)
    (category : String) (original : Val) (pfx : String) (tok : String) (st' : MState)
    (hrev : cfg.reversible = true)
    (h : getOrCreateToken sem cfg st category original pfx = some (tok, st')) :
    st'.counters = st.counters ∧
    ∀ c, c ≠ category → dlookup st'.mapping c = dlookup st.mapping c := by
  unfold getOrCreateToken at h
  by_cases h₁ : pyStrip (pyStr original) = ""
  · simp only [h₁, if_true, if_pos, Option.some.injEq, Prod.mk.injEq] at h
    rw [← h.2]
    exact ⟨rfl, fun _ _ => rfl⟩
  · simp only [h₁, if_false, if_neg, not_false_iff, hrev, if_true] at h
    cases hfound : dlookup ((dlookup st.mapping category).getD []) (pyStrip (pyStr original)) with
    | some t₀ =>
        simp only [hfound, Option.some.injEq, Prod.mk.injEq] at h
        rw [← h.2]
        exact ⟨rfl, fun _ _ => rfl⟩
    | none =>
        simp only [hfound] at h
        cases hcat : dlookup st.mapping category with
        | none => simp [hcat] at h
        | some m =>
            simp only [hcat, Option.some.injEq, Prod.mk.injEq] at h
            rw [← h.2]
            refine ⟨rfl, fun c hc => ?_⟩
            simp [dlookup_dset, hc]

theorem got_wf (sem : Sem) (cfg : Config) (st : MState)
    (category : String) (original : Val) (pfx : String)
    (hwf : wfState st = true) (hcat : category ∈ categories8) :
    ∃ tok st', getOrCreateToken sem cfg st category original pfx = some (tok, st') ∧
      wfState st' = true := by
  unfold getOrCreateToken
  by_cases h₁ : pyStrip (pyStr original) = ""
  · refine ⟨pfx ++ "_UNKNOWN", st, ?_, hwf⟩
    simp [h₁]
  · simp only [h₁, if_false, if_neg, not_false_iff]
    by_cases h₂ : cfg.reversible
    · simp only [h₂, if_true]
      cases hfound : dlookup ((dlookup st.mapping category).getD []) (pyStrip (pyStr original)) with
      | some t₀ => exact ⟨t₀, st, rfl, hwf⟩
      | none =>
          have hsome : (dlookup st.mapping category).isSome = true := by
            unfold wfState at hwf
            rw [List.all_eq_true] at hwf
            exact hwf category hcat
          cases hc : dlookup st.mapping category with
          | none => rw [hc] at hsome; simp at hsome
          | some m =>
              refine ⟨_, _, rfl, ?_⟩
              unfold wfState at hwf ⊢
              rw [List.all_eq_true] at hwf ⊢
              intro c hc8
              have := hwf c hc8
              simp only [dlookup_dset]
              by_cases hcc : c = category <;> simp [hcc, this]
    · simp only [h₂, if_false, Bool.false_eq_true]
      exact ⟨_, _, rfl, hwf⟩

/-! ### Field-masker lemmas -/

theorem anonymizeName_mono (sem : Sem) (cfg : Config) (st : MState) (v : Val)
    {o : String} {st' : MState}
    (h : anonymizeName sem cfg st v = some (o, st')) : MonoSt st st' := by
  unfold anonymizeName at h
  by_cases hn : pyStrip (pyStr v) = ""
  · simp only [hn, if_true, if_pos, Option.some.injEq, Prod.mk.injEq] at h
    rw [← h.2]; exact monoRefl st
  · simp only [hn, if_false, if_neg, not_false_iff] at h
    by_cases hr : cfg.reversible
    · simp only [hr, if_true] at h
      exact got_mono _ _ _ _ _ _ _ _ h
    · simp only [hr, if_false, Bool.false_eq_true, Option.some.injEq, Prod.mk.injEq] at h
      rw [← h.2]; exact monoRefl st

theorem maskEmail_mono (sem : Sem) (cfg : Config) (st : MState) (v : Val)
    {o : String} {st' : MState}
    (h : maskEmail sem cfg st v = some (o, st')) : MonoSt st st' := by
  unfold maskEmail at h
  by_cases hat : strHasSub (pyStr v) "@"
  · simp only [hat, Bool.not_true, if_false, Bool.false_eq_true] at h
    by_cases hr : cfg.reversible
    · simp only [hr, if_true] at h
      cases hg : getOrCreateToken sem cfg st "email" (Val.vstr (pyStr v)) "EMAIL" with
      | none => rw [hg] at h; cases h
      | some p =>
          obtain ⟨tok, st₁⟩ := p
          rw [hg] at h
          simp only [Option.some.injEq, Prod.mk.injEq] at h
          rw [← h.2]
          exact got_mono _ _ _ _ _ _ _ _ hg
    · simp only [hr, if_false, Bool.false_eq_true, Option.some.injEq, Prod.mk.injEq] at h
      rw [← h.2]; exact monoRefl st
  · simp only [hat, Bool.not_false, if_true, if_pos, Option.some.injEq, Prod.mk.injEq] at h
    rw [← h.2]; exact monoRefl st

theorem maskPhone_mono (sem : Sem) (cfg : Config) (st : MState) (v : Val)
    {o : String} {st' : MState}
    (h : maskPhone sem cfg st v = some (o, st')) : MonoSt st st' := by
  unfold maskPhone at h
  by_cases hr : cfg.reversible
  · simp only [hr, if_true] at h
    exact got_mono _ _ _ _ _ _ _ _ h
  · simp only [hr, if_false, Bool.false_eq_true, Option.some.injEq, Prod.mk.injEq] at h
    rw [← h.2]; exact monoRefl st

theorem anonymizeLocation_mono (sem : Sem) (cfg : Config) (st : MState) (v : Val)
    {o : String} {st' : MState}
    (h : anonymizeLocation sem cfg st v = some (o, st')) : MonoSt st st' := by
  unfold anonymizeLocation at h
  by_cases hn : pyStrip (pyStr v) = ""
  · simp only [hn, if_true, if_pos, Option.some.injEq, Prod.mk.injEq] at h
    rw [← h.2]; exact monoRefl st
  · simp only [hn, if_false, if_neg, not_false_iff] at h
    by_cases hr : cfg.reversible
    · simp only [hr, if_true] at h
      cases hg : getOrCreateToken sem cfg st "location" (Val.vstr (pyStrip (pyStr v))) "LOC" with
      | none => rw [hg] at h; cases h
      | some p =>
          obtain ⟨tok, st₁⟩ := p
          rw [hg] at h
          simp only [Option.some.injEq, Prod.mk.injEq] at h
          rw [← h.2]
          exact got_mono _ _ _ _ _ _ _ _ hg
    · simp only [hr, if_false, Bool.false_eq_true, Option.some.injEq, Prod.mk.injEq] at h
      rw [← h.2]; exact monoRefl st

theorem got_personal_agree (sem : Sem) (cfg : Config) (st : MState)
    (category : String) (original : Val) (pfx : String) {tok : String} {st' : MState}
    (hrev : cfg.reversible = true) (hcat : category ∈ personalCats)
    (h : getOrCreateToken sem cfg st category original pfx = some (tok, st')) :
    StAgree st st' := by
  obtain ⟨hcnt, hmap⟩ := got_effect_rev sem cfg st category original pfx tok st' hrev h
  exact ⟨hcnt.symm, fun c hc => (hmap c (fun he => hc (he ▸ hcat))).symm⟩

theorem got_wf_of (sem : Sem) (cfg : Config) {st : MState}
    (category : String) (original : Val) (pfx : String) {tok : String} {st' : MState}
    (hwf : wfState st = true)
    (h : getOrCreateToken sem cfg st category original pfx = some (tok, st')) :
    wfState st' = true := by
  unfold getOrCreateToken at h
  by_cases h₁ : pyStrip (pyStr original) = ""
  · simp only [h₁, if_true, if_pos, Option.some.injEq, Prod.mk.injEq] at h
    rw [← h.2]; exact hwf
  · simp only [h₁, if_false, if_neg, not_false_iff] at h
    by_cases h₂ : cfg.reversible
    · simp only [h₂, if_true] at h
      cases hfound : dlookup ((dlookup st.mapping category).getD []) (pyStrip (pyStr original)) with
      | some t₀ =>
          simp only [hfound, Option.some.injEq, Prod.mk.injEq] at h
          rw [← h.2]; exact hwf
      | none =>
          simp only [hfound] at h
          cases hcat : dlookup st.mapping category with
          | none => simp [hcat] at h
          | some m =>
              simp only [hcat, Option.some.injEq, Prod.mk.injEq] at h
              rw [← h.2]
              unfold wfState at hwf ⊢
              rw [List.all_eq_true] at hwf ⊢
              intro c hc8
              have := hwf c hc8
              simp only [dlookup_dset]
              by_cases hcc : c = category <;> simp [hcc, this]
    · simp only [h₂, if_false, Bool.false_eq_true, Option.some.injEq, Prod.mk.injEq] at h
      rw [← h.2]; exact hwf

theorem anonymizeName_wf (sem : Sem) (cfg : Config) (st : MState) (v : Val)
    (hwf : wfState st = true) :
    ∃ o st', anonymizeName sem cfg st v = some (o, st') ∧ StAgree st st' ∧
      wfState st' = true := by
  unfold anonymizeName
  by_cases hn : pyStrip (pyStr v) = ""
  · exact ⟨"", st, by simp [hn], stAgreeRefl st, hwf⟩
  · simp only [hn, if_false, if_neg, not_false_iff]
    by_cases hr : cfg.reversible
    · simp only [hr, if_true]
      obtain ⟨tok, st', hg, hwf'⟩ :=
        got_wf sem cfg st "name" (Val.vstr (pyStrip (pyStr v))) "CAND" hwf (by decide)
      exact ⟨tok, st', hg,
        got_personal_agree sem cfg st _ _ _ hr (by decide) hg, hwf'⟩
    · simp only [hr, if_false, Bool.false_eq_true]
      exact ⟨_, st, rfl, stAgreeRefl st, hwf⟩

theorem maskEmail_wf (sem : Sem) (cfg : Config) (st : MState) (v : Val)
    (hwf : wfState st = true) :
    ∃ o st', maskEmail sem cfg st v = some (o, st') ∧ StAgree st st' ∧
      wfState st' = true := by
  unfold maskEmail
  by_cases hat : strHasSub (pyStr v) "@"
  · simp only [hat, Bool.not_true, if_false, Bool.false_eq_true]
    by_cases hr : cfg.reversible
    · simp only [hr, if_true]
      obtain ⟨tok, st', hg, hwf'⟩ :=
        got_wf sem cfg st "email" (Val.vstr (pyStr v)) "EMAIL" hwf (by decide)
      rw [hg]
      exact ⟨tok ++ "@example.com", st', rfl,
        got_personal_agree sem cfg st _ _ _ hr (by decide) hg, hwf'⟩
    · simp only [hr, if_false, Bool.false_eq_true]
      exact ⟨_, st, rfl, stAgreeRefl st, hwf⟩
  · simp only [hat, Bool.not_false, if_true, if_pos]
    exact ⟨"anon@example.com", st, rfl, stAgreeRefl st, hwf⟩

theorem maskPhone_wf (sem : Sem) (cfg : Config) (st : MState) (v : Val)
    (hwf : wfState st = true) :
    ∃ o st', maskPhone sem cfg st v = some (o, st') ∧ StAgree st st' ∧
      wfState st' = true := by
  unfold maskPhone
  by_cases hr : cfg.reversible
  · simp only [hr, if_true]
    obtain ⟨tok, st', hg, hwf'⟩ :=
      got_wf sem cfg st "phone" (Val.vstr (pyStr v)) "PHONE" hwf (by decide)
    exact ⟨tok, st', hg,
      got_personal_agree sem cfg st _ _ _ hr (by decide) hg, hwf'⟩
  · simp only [hr, if_false, Bool.false_eq_true]
    exact ⟨_, st, rfl, stAgreeRefl st, hwf⟩

theorem anonymizeLocation_wf (sem : Sem) (cfg : Config) (st : MState) (v : Val)
    (hwf : wfState st = true) :
    ∃ o st', anonymizeLocation sem cfg st v = some (o, st') ∧ StAgree st st' ∧
      wfState st' = true := by
  unfold anonymizeLocation
  by_cases hn : pyStrip (pyStr v) = ""
  · exact ⟨"UNKNOWN", st, by simp [hn], stAgreeRefl st, hwf⟩
  · simp only [hn, if_false, if_neg, not_false_iff]
    by_cases hr : cfg.reversible
    · simp only [hr, if_true]
      obtain ⟨tok, st', hg, hwf'⟩ :=
        got_wf sem cfg st "location" (Val.vstr (pyStrip (pyStr v))) "LOC" hwf (by decide)
      rw [hg]
      exact ⟨_, st', rfl,
        got_personal_agree sem cfg st _ _ _ hr (by decide) hg, hwf'⟩
    · simp only [hr, if_false, Bool.false_eq_true]
      exact ⟨_, st, rfl, stAgreeRefl st, hwf⟩

/-! ### `anonymize_personal_info` lemmas -/

theorem piName_mono (sem : Sem) (cfg : Config) (ftm : List String) (st : MState)
    (out : List (String × Val)) {out' : List (String × Val)} {st' : MState}
    (h : piName sem cfg ftm st out = some (out', st')) : MonoSt st st' := by
  unfold piName at h
  by_cases hc : (dmem out "name" && ftm.contains "name") = true
  · simp only [hc, if_true] at h
    cases hm : anonymizeName sem cfg st ((dlookup out "name").getD (Val.vstr "")) with
    | none => rw [hm] at h; cases h
    | some p =>
        obtain ⟨nm, st₁⟩ := p
        rw [hm] at h
        simp only [Option.some.injEq, Prod.mk.injEq] at h
        rw [← h.2]
        exact anonymizeName_mono sem cfg st _ hm
  · simp only [hc, if_false, Bool.false_eq_true, Option.some.injEq, Prod.mk.injEq] at h
    rw [← h.2]; exact monoRefl st

theorem piEmail_mono (sem : Sem) (cfg : Config) (ftm : List String) (st : MState)
    (out : List (String × Val)) {out' : List (String × Val)} {st' : MState}
    (h : piEmail sem cfg ftm st out = some (out', st')) : MonoSt st st' := by
  unfold piEmail at h
  by_cases hc : (dmem out "contact_email" && ftm.contains "contact_email") = true
  · simp only [hc, if_true] at h
    cases hm : maskEmail sem cfg st ((dlookup out "contact_email").getD (Val.vstr "")) with
    | none => rw [hm] at h; cases h
    | some p =>
        obtain ⟨em, st₁⟩ := p
        rw [hm] at h
        simp only [Option.some.injEq, Prod.mk.injEq] at h
        rw [← h.2]
        exact maskEmail_mono sem cfg st _ hm
  · simp only [hc, if_false, Bool.false_eq_true, Option.some.injEq, Prod.mk.injEq] at h
    rw [← h.2]; exact monoRefl st

theorem piPhone_mono (sem : Sem) (cfg : Config) (ftm : List String) (st : MState)
    (out : List (String × Val)) {out' : List (String × Val)} {st' : MState}
    (h : piPhone sem cfg ftm st out = some (out', st')) : MonoSt st st' := by
  unfold piPhone at h
  by_cases hc : (dmem out "contact_phone" && ftm.contains "contact_phone") = true
  · simp only [hc, if_true] at h
    cases hm : maskPhone sem cfg st ((dlookup out "contact_phone").getD (Val.vstr "")) with
    | none => rw [hm] at h; cases h
    | some p =>
        obtain ⟨ph, st₁⟩ := p
        rw [hm] at h
        simp only [Option.some.injEq, Prod.mk.injEq] at h
        rw [← h.2]
        exact maskPhone_mono sem cfg st _ hm
  · simp only [hc, if_false, Bool.false_eq_true, Option.some.injEq, Prod.mk.injEq] at h
    rw [← h.2]; exact monoRefl st

theorem piLocation_mono (sem : Sem) (cfg : Config) (ftm : List String) (st : MState)
    (out : List (String × Val)) {out' : List (String × Val)} {st' : MState}
    (h : piLocation sem cfg ftm st out = some (out', st')) : MonoSt st st' := by
  unfold piLocation at h
  by_cases hc : (dmem out "location" && ftm.contains "location") = true
  · simp only [hc, if_true] at h
    cases hm : anonymizeLocation sem cfg st ((dlookup out "location").getD (Val.vstr "")) with
    | none => rw [hm] at h; cases h
    | some p =>
        obtain ⟨lc, st₁⟩ := p
        rw [hm] at h
        simp only [Option.some.injEq, Prod.mk.injEq] at h
        rw [← h.2]
        exact anonymizeLocation_mono sem cfg st _ hm
  · simp only [hc, if_false, Bool.false_eq_true, Option.some.injEq, Prod.mk.injEq] at h
    rw [← h.2]; exact monoRefl st

theorem piName_wf (sem : Sem) (cfg : Config) (ftm : List String) (st : MState)
    (out : List (String × Val)) (hwf : wfState st = true) :
    ∃ out' st', piName sem cfg ftm st out = some (out', st') ∧ StAgree st st' ∧
      wfState st' = true := by
  unfold piName
  by_cases hc : (dmem out "name" && ftm.contains "name") = true
  · simp only [hc, if_true]
    obtain ⟨o, st', hm, ha, hwf'⟩ :=
      anonymizeName_wf sem cfg st ((dlookup out "name").getD (Val.vstr "")) hwf
    rw [hm]
    exact ⟨_, st', rfl, ha, hwf'⟩
  · simp only [hc, if_false, Bool.false_eq_true]
    exact ⟨out, st, rfl, stAgreeRefl st, hwf⟩

theorem piEmail_wf (sem : Sem) (cfg : Config) (ftm : List String) (st : MState)
    (out : List (String × Val)) (hwf : wfState st = true) :
    ∃ out' st', piEmail sem cfg ftm st out = some (out', st') ∧ StAgree st st' ∧
      wfState st' = true := by
  unfold piEmail
  by_cases hc : (dmem out "contact_email" && ftm.contains "contact_email") = true
  · simp only [hc, if_true]
    obtain ⟨o, st', hm, ha, hwf'⟩ :=
      maskEmail_wf sem cfg st ((dlookup out "contact_email").getD (Val.vstr "")) hwf
    rw [hm]
    exact ⟨_, st', rfl, ha, hwf'⟩
  · simp only [hc, if_false, Bool.false_eq_true]
    exact ⟨out, st, rfl, stAgreeRefl st, hwf⟩

theorem piPhone_wf (sem : Sem) (cfg : Config) (ftm : List String) (st : MState)
    (out : List (String × Val)) (hwf : wfState st = true) :
    ∃ out' st', piPhone sem cfg ftm st out = some (out', st') ∧ StAgree st st' ∧
      wfState st' = true := by
  unfold piPhone
  by_cases hc : (dmem out "contact_phone" && ftm.contains "contact_phone") = true
  · simp only [hc, if_true]
    obtain ⟨o, st', hm, ha, hwf'⟩ :=
      maskPhone_wf sem cfg st ((dlookup out "contact_phone").getD (Val.vstr "")) hwf
    rw [hm]
    exact ⟨_, st', rfl, ha, hwf'⟩
  · simp only [hc, if_false, Bool.false_eq_true]
    exact ⟨out, st, rfl, stAgreeRefl st, hwf⟩

theorem piLocation_wf (sem : Sem) (cfg : Config) (ftm : List String) (st : MState)
    (out : List (String × Val)) (hwf : wfState st = true) :
    ∃ out' st', piLocation sem cfg ftm st out = some (out', st') ∧ StAgree st st' ∧
      wfState st' = true := by
  unfold piLocation
  by_cases hc : (dmem out "location" && ftm.contains "location") = true
  · simp only [hc, if_true]
    obtain ⟨o, st', hm, ha, hwf'⟩ :=
      anonymizeLocation_wf sem cfg st ((dlookup out "location").getD (Val.vstr "")) hwf
    rw [hm]
    exact ⟨_, st', rfl, ha, hwf'⟩
  · simp only [hc, if_false, Bool.false_eq_true]
    exact ⟨out, st, rfl, stAgreeRefl st, hwf⟩

theorem personalInfo_mono (sem : Sem) (cfg : Config) (st : MState)
    (pf : Option Val) (ftm : Option (List String)) {v : Val} {st' : MState}
    (h : anonymizePersonalInfo sem cfg st pf ftm = some (v, st')) : MonoSt st st' := by
  unfold anonymizePersonalInfo at h
  cases hp : (match pf with | none => Val.vdict [] | some v => safeParse sem.parseLit v) with
  | vdict kvs =>
      rw [hp] at h
      simp only at h
      cases h₁ : piName sem cfg _ st kvs with
      | none => rw [h₁] at h; cases h
      | some p₁ =>
          obtain ⟨o₁, st₁⟩ := p₁
          rw [h₁] at h
          simp only at h
          cases h₂ : piEmail sem cfg _ st₁ o₁ with
          | none => rw [h₂] at h; cases h
          | some p₂ =>
              obtain ⟨o₂, st₂⟩ := p₂
              rw [h₂] at h
              simp only at h
              cases h₃ : piPhone sem cfg _ st₂ o₂ with
              | none => rw [h₃] at h; cases h
              | some p₃ =>
                  obtain ⟨o₃, st₃⟩ := p₃
                  rw [h₃] at h
                  simp only at h
                  cases h₄ : piLocation sem cfg _ st₃ (piGender _ (piAge _ o₃)) with
                  | none => rw [h₄] at h; cases h
                  | some p₄ =>
                      obtain ⟨o₄, st₄⟩ := p₄
                      rw [h₄] at h
                      simp only [Option.some.injEq, Prod.mk.injEq] at h
                      rw [← h.2]
                      exact monoTrans (monoTrans (monoTrans
                        (piName_mono sem cfg _ st kvs h₁)
                        (piEmail_mono sem cfg _ st₁ o₁ h₂))
                        (piPhone_mono sem cfg _ st₂ o₂ h₃))
                        (piLocation_mono sem cfg _ st₃ _ h₄)
  | vnone => rw [hp] at h; simp only [Option.some.injEq, Prod.mk.injEq] at h; rw [← h.2]; exact monoRefl st
  | vbool b => rw [hp] at h; simp only [Option.some.injEq, Prod.mk.injEq] at h; rw [← h.2]; exact monoRefl st
  | vint n => rw [hp] at h; simp only [Option.some.injEq, Prod.mk.injEq] at h; rw [← h.2]; exact monoRefl st
  | vstr s => rw [hp] at h; simp only [Option.some.injEq, Prod.mk.injEq] at h; rw [← h.2]; exact monoRefl st
  | vlist xs => rw [hp] at h; simp only [Option.some.injEq, Prod.mk.injEq] at h; rw [← h.2]; exact monoRefl st

theorem personalInfo_wf (sem : Sem) (cfg : Config) (st : MState)
    (pf : Option Val) (ftm : Option (List String)) (hwf : wfState st = true) :
    ∃ v st', anonymizePersonalInfo sem cfg st pf ftm = some (v, st') ∧
      StAgree st st' ∧ wfState st' = true := by
  unfold anonymizePersonalInfo
  cases hp : (match pf with | none => Val.vdict [] | some v => safeParse sem.parseLit v) with
  | vdict kvs =>
      simp only
      generalize (match ftm with
        | none => defaultPersonalFields
        | some l => if l.isEmpty = true then defaultPersonalFields else l) = F
      obtain ⟨o₁, st₁, h₁, ha₁, hw₁⟩ := piName_wf sem cfg F st kvs hwf
      obtain ⟨o₂, st₂, h₂, ha₂, hw₂⟩ := piEmail_wf sem cfg F st₁ o₁ hw₁
      obtain ⟨o₃, st₃, h₃, ha₃, hw₃⟩ := piPhone_wf sem cfg F st₂ o₂ hw₂
      obtain ⟨o₄, st₄, h₄, ha₄, hw₄⟩ :=
        piLocation_wf sem cfg F st₃ (piGender F (piAge F o₃)) hw₃
      refine ⟨Val.vdict o₄, st₄, ?_, stAgreeTrans (stAgreeTrans (stAgreeTrans ha₁ ha₂) ha₃) ha₄, hw₄⟩
      simp only [h₁, h₂, h₃, h₄]
  | vnone => exact ⟨_, st, rfl, stAgreeRefl st, hwf⟩
  | vbool b => exact ⟨_, st, rfl, stAgreeRefl st, hwf⟩
  | vint n => exact ⟨_, st, rfl, stAgreeRefl st, hwf⟩
  | vstr s => exact ⟨_, st, rfl, stAgreeRefl st, hwf⟩
  | vlist xs => exact ⟨_, st, rfl, stAgreeRefl st, hwf⟩

/-! ### Congruence of the non-personal sections under `StAgree` -/

theorem ORel_none {α : Type} {R : MState → MState → Prop}
    {a b : Option (α × MState)} (h : ORel R a b) (ha : a = none) : b = none := by
  subst ha
  cases b with
  | none => rfl
  | some p => obtain ⟨y, t⟩ := p; exact absurd h (by simp [ORel])

theorem ORel_some {α : Type} {R : MState → MState → Prop}
    {a b : Option (α × MState)} (h : ORel R a b) {x : α} {s : MState}
    (ha : a = some (x, s)) : ∃ y t, b = some (y, t) ∧ x = y ∧ R s t := by
  subst ha
  cases b with
  | none => exact absurd h (by simp [ORel])
  | some p =>
      obtain ⟨y, t⟩ := p
      exact ⟨y, t, rfl, h.1, h.2⟩

theorem tokenizeTechnologies_congr (sem : Sem) (cfg : Config) {s t : MState}
    (l : List Val) (hst : StAgree s t) :
    ORel StAgree (tokenizeTechnologies sem cfg s l)
      (tokenizeTechnologies sem cfg t l) := by
  induction l generalizing s t with
  | nil => exact ⟨rfl, hst⟩
  | cons x rest ih =>
      unfold tokenizeTechnologies
      by_cases hx : pyLower (pyStrip (pyStr x)) = ""
      · simp only [hx, if_true, if_pos]
        exact ih hst
      · simp only [hx, if_false, if_neg, not_false_iff]
        by_cases hr : cfg.reversible
        · simp only [hr, if_true]
          have hg := got_congr sem cfg "technology"
            (Val.vstr (pyLower (pyStrip (pyStr x)))) "TECH" (by decide) hst
          cases hgs : getOrCreateToken sem cfg s "technology"
              (Val.vstr (pyLower (pyStrip (pyStr x)))) "TECH" with
          | none =>
              rw [ORel_none hg hgs]
              trivial
          | some p =>
              obtain ⟨tok, s₁⟩ := p
              obtain ⟨tok', t₁, hgt, htok, hst₁⟩ := ORel_some hg hgs
              subst htok
              have hrest := ih hst₁
              cases hrs : tokenizeTechnologies sem cfg s₁ rest with
              | none =>
                  have hrt := ORel_none hrest hrs
                  simp only [hgs, hgt, hrs, hrt]
                  trivial
              | some q =>
                  obtain ⟨toks, s₂⟩ := q
                  obtain ⟨toks', t₂, hrt, htoks, hst₂⟩ := ORel_some hrest hrs
                  subst htoks
                  simp only [hgs, hgt, hrs, hrt]
                  exact ⟨rfl, hst₂⟩
        · simp only [hr, if_false, Bool.false_eq_true]
          have hrest := ih hst
          cases hrs : tokenizeTechnologies sem cfg s rest with
          | none =>
              have hrt := ORel_none hrest hrs
              simp only [hrs, hrt]
              trivial
          | some q =>
              obtain ⟨toks, s₂⟩ := q
              obtain ⟨toks', t₂, hrt, htoks, hst₂⟩ := ORel_some hrest hrs
              subst htoks
              simp only [hrs, hrt]
              exact ⟨rfl, hst₂⟩

theorem cleanProjectTitle_congr (sem : Sem) (cfg : Config) {s t : MState}
    (title : Val) (hst : StAgree s t) :
    ORel StAgree (cleanProjectTitle sem cfg s title)
      (cleanProjectTitle sem cfg t title) := by
  unfold cleanProjectTitle
  by_cases hr : cfg.reversible
  · simp only [hr, if_true]
    exact got_congr sem cfg "project_title" _ "PROJ" (by decide) hst
  · simp only [hr, if_false, Bool.false_eq_true]
    exact ⟨rfl, hst⟩

theorem eduEntry_congr (sem : Sem) (cfg : Config) (e : Val) {s t : MState}
    (hst : StAgree s t) :
    ORel StAgree (eduEntry sem cfg s e) (eduEntry sem cfg t e) := by
  unfold eduEntry
  cases hpc : pyContains e "university" with
  | none => trivial
  | some hasUni =>
      simp only
      by_cases hb : hasUni = true
      · simp only [hb, if_true]
        cases hgd : pyGetD e "university" (Val.vstr "") with
        | none => trivial
        | some uni =>
            simp only
            by_cases htr : pyTruthy uni = true
            · simp only [htr, if_true]
              have hg := got_congr sem cfg "university" uni "UNIV" (by decide) hst
              cases hgs : getOrCreateToken sem cfg s "university" uni "UNIV" with
              | none =>
                  have hgt := ORel_none hg hgs
                  simp only [hgs, hgt]
                  trivial
              | some p =>
                  obtain ⟨tok, s₁⟩ := p
                  obtain ⟨tok', t₁, hgt, htok, hst₁⟩ := ORel_some hg hgs
                  subst htok
                  simp only [hgs, hgt]
                  cases hset : pySet e "university" (Val.vstr tok) with
                  | none => trivial
                  | some e' =>
                      simp only
                      by_cases hpre : cfg.preserveNumericFeatures = true
                      · simp only [hpre, if_true]
                        exact ⟨rfl, hst₁⟩
                      · simp only [hpre, Bool.false_eq_true, if_false]
                        cases hg1 : pyPop e' "grade" with
                        | none => trivial
                        | some e₂ =>
                            simp only
                            cases hg2 : pyPop e₂ "year" with
                            | none => trivial
                            | some e₃ => exact ⟨rfl, hst₁⟩
            · simp only [htr, Bool.false_eq_true, if_false]
              cases hset : pySet e "university" (Val.vstr "UNIV_UNKNOWN") with
              | none => trivial
              | some e' =>
                  simp only
                  by_cases hpre : cfg.preserveNumericFeatures = true
                  · simp only [hpre, if_true]
                    exact ⟨rfl, hst⟩
                  · simp only [hpre, Bool.false_eq_true, if_false]
                    cases hg1 : pyPop e' "grade" with
                    | none => trivial
                    | some e₂ =>
                        simp only
                        cases hg2 : pyPop e₂ "year" with
                        | none => trivial
                        | some e₃ => exact ⟨rfl, hst⟩
      · simp only [hb, Bool.false_eq_true, if_false]
        by_cases hpre : cfg.preserveNumericFeatures = true
        · simp only [hpre, if_true]
          exact ⟨rfl, hst⟩
        · simp only [hpre, Bool.false_eq_true, if_false]
          cases hg1 : pyPop e "grade" with
          | none => trivial
          | some e₂ =>
              simp only
              cases hg2 : pyPop e₂ "year" with
              | none => trivial
              | some e₃ => exact ⟨rfl, hst⟩

theorem eduEntry_mono (sem : Sem) (cfg : Config) (st : MState) (e : Val)
    {e' : Val} {st' : MState}
    (h : eduEntry sem cfg st e = some (e', st')) : MonoSt st st' := by
  unfold eduEntry at h
  cases hpc : pyContains e "university" with
  | none => rw [hpc] at h; cases h
  | some hasUni =>
      rw [hpc] at h
      simp only at h
      by_cases hb : hasUni = true
      · simp only [hb, if_true] at h
        cases hgd : pyGetD e "university" (Val.vstr "") with
        | none => rw [hgd] at h; cases h
        | some uni =>
            rw [hgd] at h
            simp only at h
            by_cases htr : pyTruthy uni = true
            · simp only [htr, if_true] at h
              cases hgs : getOrCreateToken sem cfg st "university" uni "UNIV" with
              | none => rw [hgs] at h; cases h
              | some p =>
                  obtain ⟨tok, st₁⟩ := p
                  rw [hgs] at h
                  simp only at h
                  have hmono := got_mono sem cfg st "university" uni "UNIV" tok st₁ hgs
                  cases hset : pySet e "university" (Val.vstr tok) with
                  | none => rw [hset] at h; cases h
                  | some e₁ =>
                      rw [hset] at h
                      simp only at h
                      by_cases hpre : cfg.preserveNumericFeatures = true
                      · simp only [hpre, if_true, Option.some.injEq, Prod.mk.injEq] at h
                        rw [← h.2]; exact hmono
                      · simp only [hpre, Bool.false_eq_true, if_false] at h
                        cases hg1 : pyPop e₁ "grade" with
                        | none => rw [hg1] at h; cases h
                        | some e₂ =>
                            rw [hg1] at h
                            simp only at h
                            cases hg2 : pyPop e₂ "year" with
                            | none => rw [hg2] at h; cases h
                            | some e₃ =>
                                rw [hg2] at h
                                simp only [Option.some.injEq, Prod.mk.injEq] at h
                                rw [← h.2]; exact hmono
            · simp only [htr, Bool.false_eq_true, if_false] at h
              cases hset : pySet e "university" (Val.vstr "UNIV_UNKNOWN") with
              | none => rw [hset] at h; cases h
              | some e₁ =>
                  rw [hset] at h
                  simp only at h
                  by_cases hpre : cfg.preserveNumericFeatures = true
                  · simp only [hpre, if_true, Option.some.injEq, Prod.mk.injEq] at h
                    rw [← h.2]; exact monoRefl st
                  · simp only [hpre, Bool.false_eq_true, if_false] at h
                    cases hg1 : pyPop e₁ "grade" with
                    | none => rw [hg1] at h; cases h
                    | some e₂ =>
                        rw [hg1] at h
                        simp only at h
                        cases hg2 : pyPop e₂ "year" with
                        | none => rw [hg2] at h; cases h
                        | some e₃ =>
                            rw [hg2] at h
                            simp only [Option.some.injEq, Prod.mk.injEq] at h
                            rw [← h.2]; exact monoRefl st
      · simp only [hb, Bool.false_eq_true, if_false] at h
        by_cases hpre : cfg.preserveNumericFeatures = true
        · simp only [hpre, if_true, Option.some.injEq, Prod.mk.injEq] at h
          rw [← h.2]; exact monoRefl st
        · simp only [hpre, Bool.false_eq_true, if_false] at h
          cases hg1 : pyPop e "grade" with
          | none => rw [hg1] at h; cases h
          | some e₂ =>
              rw [hg1] at h
              simp only at h
              cases hg2 : pyPop e₂ "year" with
              | none => rw [hg2] at h; cases h
              | some e₃ =>
                  rw [hg2] at h
                  simp only [Option.some.injEq, Prod.mk.injEq] at h
                  rw [← h.2]; exact monoRefl st

theorem mapEntries_congr (f : MState → Val → Option (Val × MState))
    (hf : ∀ (e : Val) {s t : MState}, StAgree s t → ORel StAgree (f s e) (f t e))
    (l : List Val) {s t : MState} (hst : StAgree s t) :
    ORel StAgree (mapEntries f s l) (mapEntries f t l) := by
  induction l generalizing s t with
  | nil => exact ⟨rfl, hst⟩
  | cons e rest ih =>
      unfold mapEntries
      have hg := hf e hst
      cases hgs : f s e with
      | none =>
          have hgt := ORel_none hg hgs
          simp only [hgs, hgt]
          trivial
      | some p =>
          obtain ⟨e₁, s₁⟩ := p
          obtain ⟨e₁', t₁, hgt, heq, hst₁⟩ := ORel_some hg hgs
          subst heq
          have hrest := ih hst₁
          cases hrs : mapEntries f s₁ rest with
          | none =>
              have hrt := ORel_none hrest hrs
              simp only [hgs, hgt, hrs, hrt]
              trivial
          | some q =>
              obtain ⟨l₁, s₂⟩ := q
              obtain ⟨l₁', t₂, hrt, hleq, hst₂⟩ := ORel_some hrest hrs
              subst hleq
              simp only [hgs, hgt, hrs, hrt]
              exact ⟨rfl, hst₂⟩

theorem mapEntries_mono (f : MState → Val → Option (Val × MState))
    (hf : ∀ (st : MState) (e : Val) {e' : Val} {st' : MState},
      f st e = some (e', st') → MonoSt st st')
    (l : List Val) (st : MState) {l' : List Val} {st' : MState}
    (h : mapEntries f st l = some (l', st')) : MonoSt st st' := by
  induction l generalizing st l' with
  | nil =>
      unfold mapEntries at h
      simp only [Option.some.injEq, Prod.mk.injEq] at h
      rw [← h.2]; exact monoRefl st
  | cons e rest ih =>
      unfold mapEntries at h
      cases h₁ : f st e with
      | none => rw [h₁] at h; cases h
      | some p =>
          obtain ⟨e₁, st₁⟩ := p
          rw [h₁] at h
          simp only at h
          cases h₂ : mapEntries f st₁ rest with
          | none => rw [h₂] at h; cases h
          | some q =>
              obtain ⟨l₁, st₂⟩ := q
              rw [h₂] at h
              simp only [Option.some.injEq, Prod.mk.injEq] at h
              obtain ⟨hl, hs⟩ := h
              subst hs
              exact monoTrans (hf st e h₁) (ih st₁ h₂)

theorem anonymizeEducation_congr (sem : Sem) (cfg : Config) (field? : Option Val)
    {s t : MState} (hst : StAgree s t) :
    ORel StAgree (anonymizeEducation sem cfg s field?)
      (anonymizeEducation sem cfg t field?) := by
  unfold anonymizeEducation
  cases hp : (match field? with | none => Val.vdict [] | some v => safeParse sem.parseLit v) with
  | vdict out =>
      simp only
      cases hit : pyIter ((dlookup out "entries").getD (Val.vlist [])) with
      | none => trivial
      | some entries =>
          simp only
          have hm := mapEntries_congr (eduEntry sem cfg)
            (fun e => eduEntry_congr sem cfg e) entries hst
          cases hms : mapEntries (eduEntry sem cfg) s entries with
          | none =>
              have hmt := ORel_none hm hms
              simp only [hms, hmt]
              trivial
          | some q =>
              obtain ⟨ne, s₁⟩ := q
              obtain ⟨ne', t₁, hmt, heq, hst₁⟩ := ORel_some hm hms
              subst heq
              simp only [hms, hmt]
              exact ⟨rfl, hst₁⟩
  | vnone => exact ⟨rfl, hst⟩
  | vbool b => exact ⟨rfl, hst⟩
  | vint n => exact ⟨rfl, hst⟩
  | vstr s₀ => exact ⟨rfl, hst⟩
  | vlist xs => exact ⟨rfl, hst⟩

theorem anonymizeEducation_mono (sem : Sem) (cfg : Config) (st : MState)
    (field? : Option Val) {v : Val} {st' : MState}
    (h : anonymizeEducation sem cfg st field? = some (v, st')) : MonoSt st st' := by
  unfold anonymizeEducation at h
  cases hp : (match field? with | none => Val.vdict [] | some v => safeParse sem.parseLit v) with
  | vdict out =>
      rw [hp] at h
      simp only at h
      cases hit : pyIter ((dlookup out "entries").getD (Val.vlist [])) with
      | none => rw [hit] at h; cases h
      | some entries =>
          rw [hit] at h
          simp only at h
          cases hms : mapEntries (eduEntry sem cfg) st entries with
          | none => rw [hms] at h; cases h
          | some q =>
              obtain ⟨ne, st₁⟩ := q
              rw [hms] at h
              simp only [Option.some.injEq, Prod.mk.injEq] at h
              rw [← h.2]
              exact mapEntries_mono (eduEntry sem cfg)
                (fun s e => eduEntry_mono sem cfg s e) entries st hms
  | vnone => rw [hp] at h; simp only [Option.some.injEq, Prod.mk.injEq] at h; rw [← h.2]; exact monoRefl st
  | vbool b => rw [hp] at h; simp only [Option.some.injEq, Prod.mk.injEq] at h; rw [← h.2]; exact monoRefl st
  | vint n => rw [hp] at h; simp only [Option.some.injEq, Prod.mk.injEq] at h; rw [← h.2]; exact monoRefl st
  | vstr s₀ => rw [hp] at h; simp only [Option.some.injEq, Prod.mk.injEq] at h; rw [← h.2]; exact monoRefl st
  | vlist xs => rw [hp] at h; simp only [Option.some.injEq, Prod.mk.injEq] at h; rw [← h.2]; exact monoRefl st

theorem expEntry_congr (sem : Sem) (cfg : Config) (e : Val) {s t : MState}
    (hst : StAgree s t) :
    ORel StAgree (expEntry sem cfg s e) (expEntry sem cfg t e) := by
  unfold expEntry
  cases hpc : pyContains e "company" with
  | none => trivial
  | some hasComp =>
      simp only
      by_cases hb : hasComp = true
      · simp only [hb, if_true]
        cases hgd : pyGetD e "company" (Val.vstr "") with
        | none => trivial
        | some comp =>
            simp only
            by_cases htr : pyTruthy comp = true
            · simp only [htr, if_true]
              have hg := got_congr sem cfg "company" comp "ORG" (by decide) hst
              cases hgs : getOrCreateToken sem cfg s "company" comp "ORG" with
              | none =>
                  have hgt := ORel_none hg hgs
                  simp only [hgs, hgt]
                  trivial
              | some p =>
                  obtain ⟨tok, s₁⟩ := p
                  obtain ⟨tok', t₁, hgt, htok, hst₁⟩ := ORel_some hg hgs
                  subst htok
                  simp only [hgs, hgt]
                  cases hset : pySet e "company" (Val.vstr tok) with
                  | none => trivial
                  | some e₁ =>
                      simp only
                      cases hjc : pyContains e₁ "job_title" with
                      | none => trivial
                      | some hasJT =>
                          simp only
                          by_cases hj : hasJT = true
                          · simp only [hj, if_true]
                            cases hjg : pyGetD e₁ "job_title" Val.vnone with
                            | none => trivial
                            | some jt =>
                                simp only
                                cases hjs : pySet e₁ "job_title"
                                    (Val.vstr (sem.reSubJobTitle (pyStr jt))) with
                                | none => trivial
                                | some e₂ => exact ⟨rfl, hst₁⟩
                          · simp only [hj, Bool.false_eq_true, if_false]
                            exact ⟨rfl, hst₁⟩
            · simp only [htr, Bool.false_eq_true, if_false]
              cases hset : pySet e "company" (Val.vstr "ORG_UNKNOWN") with
              | none => trivial
              | some e₁ =>
                  simp only
                  cases hjc : pyContains e₁ "job_title" with
                  | none => trivial
                  | some hasJT =>
                      simp only
                      by_cases hj : hasJT = true
                      · simp only [hj, if_true]
                        cases hjg : pyGetD e₁ "job_title" Val.vnone with
                        | none => trivial
                        | some jt =>
                            simp only
                            cases hjs : pySet e₁ "job_title"
                                (Val.vstr (sem.reSubJobTitle (pyStr jt))) with
                            | none => trivial
                            | some e₂ => exact ⟨rfl, hst⟩
                      · simp only [hj, Bool.false_eq_true, if_false]
                        exact ⟨rfl, hst⟩
      · simp only [hb, Bool.false_eq_true, if_false]
        cases hjc : pyContains e "job_title" with
        | none => trivial
        | some hasJT =>
            simp only
            by_cases hj : hasJT = true
            · simp only [hj, if_true]
              cases hjg : pyGetD e "job_title" Val.vnone with
              | none => trivial
              | some jt =>
                  simp only
                  cases hjs : pySet e "job_title"
                      (Val.vstr (sem.reSubJobTitle (pyStr jt))) with
                  | none => trivial
                  | some e₂ => exact ⟨rfl, hst⟩
            · simp only [hj, Bool.false_eq_true, if_false]
              exact ⟨rfl, hst⟩

theorem expEntry_mono (sem : Sem) (cfg : Config) (st : MState) (e : Val)
    {e' : Val} {st' : MState}
    (h : expEntry sem cfg st e = some (e', st')) : MonoSt st st' := by
  unfold expEntry at h
  cases hpc : pyContains e "company" with
  | none => rw [hpc] at h; cases h
  | some hasComp =>
      rw [hpc] at h
      simp only at h
      have tail : ∀ (e₁ : Val) (st₁ : MState),
          (match pyContains e₁ "job_title" with
           | none => none
           | some hasJT =>
               if hasJT then
                 match pyGetD e₁ "job_title" Val.vnone with
                 | none => none
                 | some jt =>
                     match pySet e₁ "job_title" (Val.vstr (sem.reSubJobTitle (pyStr jt))) with
                     | some e₂ => some (e₂, st₁)
                     | none => none
               else some (e₁, st₁)) = some (e', st') → st' = st₁ := by
        intro e₁ st₁ hh
        cases hjc : pyContains e₁ "job_title" with
        | none => rw [hjc] at hh; cases hh
        | some hasJT =>
            rw [hjc] at hh
            simp only at hh
            by_cases hj : hasJT = true
            · simp only [hj, if_true] at hh
              cases hjg : pyGetD e₁ "job_title" Val.vnone with
              | none => rw [hjg] at hh; cases hh
              | some jt =>
                  rw [hjg] at hh
                  simp only at hh
                  cases hjs : pySet e₁ "job_title"
                      (Val.vstr (sem.reSubJobTitle (pyStr jt))) with
                  | none => rw [hjs] at hh; cases hh
                  | some e₂ =>
                      rw [hjs] at hh
                      simp only [Option.some.injEq, Prod.mk.injEq] at hh
                      exact hh.2.symm
            · simp only [hj, Bool.false_eq_true, if_false,
                Option.some.injEq, Prod.mk.injEq] at hh
              exact hh.2.symm
      by_cases hb : hasComp = true
      · simp only [hb, if_true] at h
        cases hgd : pyGetD e "company" (Val.vstr "") with
        | none => rw [hgd] at h; cases h
        | some comp =>
            rw [hgd] at h
            simp only at h
            by_cases htr : pyTruthy comp = true
            · simp only [htr, if_true] at h
              cases hgs : getOrCreateToken sem cfg st "company" comp "ORG" with
              | none => rw [hgs] at h; cases h
              | some p =>
                  obtain ⟨tok, st₁⟩ := p
                  rw [hgs] at h
                  simp only at h
                  cases hset : pySet e "company" (Val.vstr tok) with
                  | none => rw [hset] at h; cases h
                  | some e₁ =>
                      rw [hset] at h
                      simp only at h
                      rw [tail e₁ st₁ h]
                      exact got_mono sem cfg st "company" comp "ORG" tok st₁ hgs
            · simp only [htr, Bool.false_eq_true, if_false] at h
              cases hset : pySet e "company" (Val.vstr "ORG_UNKNOWN") with
              | none => rw [hset] at h; cases h
              | some e₁ =>
                  rw [hset] at h
                  simp only at h
                  rw [tail e₁ st h]
                  exact monoRefl st
      · simp only [hb, Bool.false_eq_true, if_false] at h
        rw [tail e st h]
        exact monoRefl st

theorem cleanProjectTitle_mono (sem : Sem) (cfg : Config) (st : MState) (title : Val)
    {tok : String} {st' : MState}
    (h : cleanProjectTitle sem cfg st title = some (tok, st')) : MonoSt st st' := by
  unfold cleanProjectTitle at h
  by_cases hr : cfg.reversible
  · simp only [hr, if_true] at h
    exact got_mono _ _ _ _ _ _ _ _ h
  · simp only [hr, if_false, Bool.false_eq_true, Option.some.injEq, Prod.mk.injEq] at h
    rw [← h.2]; exact monoRefl st

theorem tokenizeTechnologies_mono (sem : Sem) (cfg : Config)
    (l : List Val) (st : MState) {toks : List String} {st' : MState}
    (h : tokenizeTechnologies sem cfg st l = some (toks, st')) : MonoSt st st' := by
  induction l generalizing st toks with
  | nil =>
      unfold tokenizeTechnologies at h
      simp only [Option.some.injEq, Prod.mk.injEq] at h
      rw [← h.2]; exact monoRefl st
  | cons x rest ih =>
      unfold tokenizeTechnologies at h
      by_cases hx : pyLower (pyStrip (pyStr x)) = ""
      · simp only [hx, if_true, if_pos] at h
        exact ih st h
      · simp only [hx, if_false, if_neg, not_false_iff] at h
        by_cases hr : cfg.reversible
        · simp only [hr, if_true] at h
          cases hgs : getOrCreateToken sem cfg st "technology"
              (Val.vstr (pyLower (pyStrip (pyStr x)))) "TECH" with
          | none => rw [hgs] at h; cases h
          | some p =>
              obtain ⟨tok, st₁⟩ := p
              rw [hgs] at h
              simp only at h
              cases hrs : tokenizeTechnologies sem cfg st₁ rest with
              | none => rw [hrs] at h; cases h
              | some q =>
                  obtain ⟨toks₁, st₂⟩ := q
                  rw [hrs] at h
                  simp only [Option.some.injEq, Prod.mk.injEq] at h
                  obtain ⟨-, hs⟩ := h
                  subst hs
                  exact monoTrans (got_mono _ _ _ _ _ _ _ _ hgs) (ih st₁ hrs)
        · simp only [hr, if_false, Bool.false_eq_true] at h
          cases hrs : tokenizeTechnologies sem cfg st rest with
          | none => rw [hrs] at h; cases h
          | some q =>
              obtain ⟨toks₁, st₂⟩ := q
              rw [hrs] at h
              simp only [Option.some.injEq, Prod.mk.injEq] at h
              obtain ⟨-, hs⟩ := h
              subst hs
              exact ih st hrs

theorem projDescTech_congr (sem : Sem) (cfg : Config) (e₁ : Val) {s t : MState}
    (hst : StAgree s t) :
    ORel StAgree (projDescTech sem cfg s e₁) (projDescTech sem cfg t e₁) := by
  have main : ∀ (e₂ : Val) (tl : List Val),
      ORel StAgree
        (match tokenizeTechnologies sem cfg s tl with
         | some (toks, st₂) =>
             match pySet e₂ "technologies" (Val.vlist (toks.map Val.vstr)) with
             | some e₃ => some (e₃, st₂)
             | none => none
         | none => none)
        (match tokenizeTechnologies sem cfg t tl with
         | some (toks, st₂) =>
             match pySet e₂ "technologies" (Val.vlist (toks.map Val.vstr)) with
             | some e₃ => some (e₃, st₂)
             | none => none
         | none => none) := by
    intro e₂ tl
    have htok := tokenizeTechnologies_congr sem cfg tl hst
    cases hts : tokenizeTechnologies sem cfg s tl with
    | none =>
        have htn := ORel_none htok hts
        simp only [hts, htn]
        trivial
    | some q =>
        obtain ⟨toks, s₂⟩ := q
        obtain ⟨toks', t₂, htr, heq, hst₂⟩ := ORel_some htok hts
        subst heq
        simp only [hts, htr]
        cases hset : pySet e₂ "technologies" (Val.vlist (toks.map Val.vstr)) with
        | none => trivial
        | some e₃ => exact ⟨rfl, hst₂⟩
  have stage3 : ∀ (e₂ : Val),
      ORel StAgree
        (match pyContains e₂ "technologies" with
         | none => none
         | some hasTech =>
             if hasTech then
               match pyGetD e₂ "technologies" (Val.vlist []) with
               | none => none
               | some techs =>
                   match tokenizeTechnologies sem cfg s
                       (match techs with
                         | Val.vstr s₀ =>
                             (((pySplit s₀ "|").map pyStrip).filter
                               (fun t => t ≠ "")).map Val.vstr
                         | Val.vlist xs => xs
                         | _ => []) with
                   | some (toks, st₂) =>
                       match pySet e₂ "technologies" (Val.vlist (toks.map Val.vstr)) with
                       | some e₃ => some (e₃, st₂)
                       | none => none
                   | none => none
             else some (e₂, s))
        (match pyContains e₂ "technologies" with
         | none => none
         | some hasTech =>
             if hasTech then
               match pyGetD e₂ "technologies" (Val.vlist []) with
               | none => none
               | some techs =>
                   match tokenizeTechnologies sem cfg t
                       (match techs with
                         | Val.vstr s₀ =>
                             (((pySplit s₀ "|").map pyStrip).filter
                               (fun t => t ≠ "")).map Val.vstr
                         | Val.vlist xs => xs
                         | _ => []) with
                   | some (toks, st₂) =>
                       match pySet e₂ "technologies" (Val.vlist (toks.map Val.vstr)) with
                       | some e₃ => some (e₃, st₂)
                       | none => none
                   | none => none
             else some (e₂, t)) := by
    intro e₂
    cases htc : pyContains e₂ "technologies" with
    | none => trivial
    | some hasTech =>
        simp only
        by_cases htt : hasTech = true
        · simp only [htt, if_true]
          cases htg : pyGetD e₂ "technologies" (Val.vlist []) with
          | none => trivial
          | some techs =>
              simp only
              exact main e₂ _
        · simp only [htt, Bool.false_eq_true, if_false]
          exact ⟨rfl, hst⟩
  unfold projDescTech
  cases hdc : pyContains e₁ "description" with
  | none => trivial
  | some hasDesc =>
      simp only
      by_cases hd : hasDesc = true
      · simp only [hd, if_true]
        cases hdg : pyGetD e₁ "description" (Val.vstr "") with
        | none => trivial
        | some d =>
            simp only
            cases hds : pySet e₁ "description"
                (Val.vstr (if (sem.reSubPhone (sem.reSubEmail (pyStr d))).length > 500
                  then pyTake (sem.reSubPhone (sem.reSubEmail (pyStr d))) 500 ++ "..."
                  else sem.reSubPhone (sem.reSubEmail (pyStr d)))) with
            | none => trivial
            | some e₂ =>
                simp only
                exact stage3 e₂
      · simp only [hd, Bool.false_eq_true, if_false]
        exact stage3 e₁

theorem projDescTech_mono (sem : Sem) (cfg : Config) (st : MState) (e₁ : Val)
    {e' : Val} {st' : MState}
    (h : projDescTech sem cfg st e₁ = some (e', st')) : MonoSt st st' := by
  have main : ∀ (e₂ : Val) (tl : List Val),
      (match tokenizeTechnologies sem cfg st tl with
       | some (toks, st₂) =>
           match pySet e₂ "technologies" (Val.vlist (toks.map Val.vstr)) with
           | some e₃ => some (e₃, st₂)
           | none => none
       | none => none) = some (e', st') → MonoSt st st' := by
    intro e₂ tl hh
    cases hts : tokenizeTechnologies sem cfg st tl with
    | none => rw [hts] at hh; cases hh
    | some q =>
        obtain ⟨toks, st₂⟩ := q
        rw [hts] at hh
        simp only at hh
        cases hset : pySet e₂ "technologies" (Val.vlist (toks.map Val.vstr)) with
        | none => rw [hset] at hh; cases hh
        | some e₃ =>
            rw [hset] at hh
            simp only [Option.some.injEq, Prod.mk.injEq] at hh
            obtain ⟨-, hs⟩ := hh
            subst hs
            exact tokenizeTechnologies_mono sem cfg tl st hts
  have stage3 : ∀ (e₂ : Val),
      (match pyContains e₂ "technologies" with
       | none => none
       | some hasTech =>
           if hasTech then
             match pyGetD e₂ "technologies" (Val.vlist []) with
             | none => none
             | some techs =>
                 match tokenizeTechnologies sem cfg st
                     (match techs with
                       | Val.vstr s₀ =>
                           (((pySplit s₀ "|").map pyStrip).filter
                             (fun t => t ≠ "")).map Val.vstr
                       | Val.vlist xs => xs
                       | _ => []) with
                 | some (toks, st₂) =>
                     match pySet e₂ "technologies" (Val.vlist (toks.map Val.vstr)) with
                     | some e₃ => some (e₃, st₂)
                     | none => none
                 | none => none
           else some (e₂, st)) = some (e', st') → MonoSt st st' := by
    intro e₂ hh
    cases htc : pyContains e₂ "technologies" with
    | none => rw [htc] at hh; cases hh
    | some hasTech =>
        rw [htc] at hh
        simp only at hh
        by_cases htt : hasTech = true
        · simp only [htt, if_true] at hh
          cases htg : pyGetD e₂ "technologies" (Val.vlist []) with
          | none => rw [htg] at hh; cases hh
          | some techs =>
              rw [htg] at hh
              simp only at hh
              exact main e₂ _ hh
        · simp only [htt, Bool.false_eq_true, if_false,
            Option.some.injEq, Prod.mk.injEq] at hh
          obtain ⟨-, hs⟩ := hh
          subst hs
          exact monoRefl st
  unfold projDescTech at h
  cases hdc : pyContains e₁ "description" with
  | none => rw [hdc] at h; cases h
  | some hasDesc =>
      rw [hdc] at h
      simp only at h
      by_cases hd : hasDesc = true
      · simp only [hd, if_true] at h
        cases hdg : pyGetD e₁ "description" (Val.vstr "") with
        | none => rw [hdg] at h; cases h
        | some d =>
            rw [hdg] at h
            simp only at h
            cases hds : pySet e₁ "description"
                (Val.vstr (if (sem.reSubPhone (sem.reSubEmail (pyStr d))).length > 500
                  then pyTake (sem.reSubPhone (sem.reSubEmail (pyStr d))) 500 ++ "..."
                  else sem.reSubPhone (sem.reSubEmail (pyStr d)))) with
            | none => rw [hds] at h; cases h
            | some e₂ =>
                rw [hds] at h
                simp only at h
                exact stage3 e₂ h
      · simp only [hd, Bool.false_eq_true, if_false] at h
        exact stage3 e₁ h

theorem projEntry_congr (sem : Sem) (cfg : Config) (e : Val) {s t : MState}
    (hst : StAgree s t) :
    ORel StAgree (projEntry sem cfg s e) (projEntry sem cfg t e) := by
  unfold projEntry
  cases hpc : pyContains e "title" with
  | none => trivial
  | some hasTitle =>
      simp only
      by_cases hb : hasTitle = true
      · simp only [hb, if_true]
        cases hgd : pyGetD e "title" (Val.vstr "") with
        | none => trivial
        | some ttl =>
            simp only
            have hg := cleanProjectTitle_congr sem cfg ttl hst
            cases hgs : cleanProjectTitle sem cfg s ttl with
            | none =>
                have hgt := ORel_none hg hgs
                simp only [hgs, hgt]
                trivial
            | some p =>
                obtain ⟨tok, s₁⟩ := p
                obtain ⟨tok', t₁, hgt, htok, hst₁⟩ := ORel_some hg hgs
                subst htok
                simp only [hgs, hgt]
                cases hset : pySet e "title" (Val.vstr tok) with
                | none => trivial
                | some e₁ => exact projDescTech_congr sem cfg e₁ hst₁
      · simp only [hb, Bool.false_eq_true, if_false]
        exact projDescTech_congr sem cfg e hst

theorem projEntry_mono (sem : Sem) (cfg : Config) (st : MState) (e : Val)
    {e' : Val} {st' : MState}
    (h : projEntry sem cfg st e = some (e', st')) : MonoSt st st' := by
  unfold projEntry at h
  cases hpc : pyContains e "title" with
  | none => rw [hpc] at h; cases h
  | some hasTitle =>
      rw [hpc] at h
      simp only at h
      by_cases hb : hasTitle = true
      · simp only [hb, if_true] at h
        cases hgd : pyGetD e "title" (Val.vstr "") with
        | none => rw [hgd] at h; cases h
        | some ttl =>
            rw [hgd] at h
            simp only at h
            cases hgs : cleanProjectTitle sem cfg st ttl with
            | none => rw [hgs] at h; cases h
            | some p =>
                obtain ⟨tok, st₁⟩ := p
                rw [hgs] at h
                simp only at h
                cases hset : pySet e "title" (Val.vstr tok) with
                | none => rw [hset] at h; cases h
                | some e₁ =>
                    rw [hset] at h
                    simp only at h
                    exact monoTrans (cleanProjectTitle_mono sem cfg st ttl hgs)
                      (projDescTech_mono sem cfg st₁ e₁ h)
      · simp only [hb, Bool.false_eq_true, if_false] at h
        exact projDescTech_mono sem cfg st e h

theorem anonymizeExperience_congr (sem : Sem) (cfg : Config) (field? : Option Val)
    {s t : MState} (hst : StAgree s t) :
    ORel StAgree (anonymizeExperience sem cfg s field?)
      (anonymizeExperience sem cfg t field?) := by
  unfold anonymizeExperience
  cases hp : (match field? with | none => Val.vdict [] | some v => safeParse sem.parseLit v) with
  | vdict out =>
      simp only
      cases hit : pyIter ((dlookup out "entries").getD (Val.vlist [])) with
      | none => trivial
      | some entries =>
          simp only
          have hm := mapEntries_congr (expEntry sem cfg)
            (fun e => expEntry_congr sem cfg e) entries hst
          cases hms : mapEntries (expEntry sem cfg) s entries with
          | none =>
              have hmt := ORel_none hm hms
              simp only [hms, hmt]
              trivial
          | some q =>
              obtain ⟨ne, s₁⟩ := q
              obtain ⟨ne', t₁, hmt, heq, hst₁⟩ := ORel_some hm hms
              subst heq
              simp only [hms, hmt]
              exact ⟨rfl, hst₁⟩
  | vnone => exact ⟨rfl, hst⟩
  | vbool b => exact ⟨rfl, hst⟩
  | vint n => exact ⟨rfl, hst⟩
  | vstr s₀ => exact ⟨rfl, hst⟩
  | vlist xs => exact ⟨rfl, hst⟩

theorem anonymizeExperience_mono (sem : Sem) (cfg : Config) (st : MState)
    (field? : Option Val) {v : Val} {st' : MState}
    (h : anonymizeExperience sem cfg st field? = some (v, st')) : MonoSt st st' := by
  unfold anonymizeExperience at h
  cases hp : (match field? with | none => Val.vdict [] | some v => safeParse sem.parseLit v) with
  | vdict out =>
      rw [hp] at h
      simp only at h
      cases hit : pyIter ((dlookup out "entries").getD (Val.vlist [])) with
      | none => rw [hit] at h; cases h
      | some entries =>
          rw [hit] at h
          simp only at h
          cases hms : mapEntries (expEntry sem cfg) st entries with
          | none => rw [hms] at h; cases h
          | some q =>
              obtain ⟨ne, st₁⟩ := q
              rw [hms] at h
              simp only [Option.some.injEq, Prod.mk.injEq] at h
              rw [← h.2]
              exact mapEntries_mono (expEntry sem cfg)
                (fun s e => expEntry_mono sem cfg s e) entries st hms
  | vnone => rw [hp] at h; simp only [Option.some.injEq, Prod.mk.injEq] at h; rw [← h.2]; exact monoRefl st
  | vbool b => rw [hp] at h; simp only [Option.some.injEq, Prod.mk.injEq] at h; rw [← h.2]; exact monoRefl st
  | vint n => rw [hp] at h; simp only [Option.some.injEq, Prod.mk.injEq] at h; rw [← h.2]; exact monoRefl st
  | vstr s₀ => rw [hp] at h; simp only [Option.some.injEq, Prod.mk.injEq] at h; rw [← h.2]; exact monoRefl st
  | vlist xs => rw [hp] at h; simp only [Option.some.injEq, Prod.mk.injEq] at h; rw [← h.2]; exact monoRefl st

theorem anonymizeProjects_congr (sem : Sem) (cfg : Config) (field? : Option Val)
    {s t : MState} (hst : StAgree s t) :
    ORel StAgree (anonymizeProjects sem cfg s field?)
      (anonymizeProjects sem cfg t field?) := by
  unfold anonymizeProjects
  cases hp : (match field? with | none => Val.vdict [] | some v => safeParse sem.parseLit v) with
  | vdict out =>
      simp only
      cases hit : pyIter ((dlookup out "entries").getD (Val.vlist [])) with
      | none => trivial
      | some entries =>
          simp only
          have hm := mapEntries_congr (projEntry sem cfg)
            (fun e => projEntry_congr sem cfg e) entries hst
          cases hms : mapEntries (projEntry sem cfg) s entries with
          | none =>
              have hmt := ORel_none hm hms
              simp only [hms, hmt]
              trivial
          | some q =>
              obtain ⟨ne, s₁⟩ := q
              obtain ⟨ne', t₁, hmt, heq, hst₁⟩ := ORel_some hm hms
              subst heq
              simp only [hms, hmt]
              exact ⟨rfl, hst₁⟩
  | vnone => exact ⟨rfl, hst⟩
  | vbool b => exact ⟨rfl, hst⟩
  | vint n => exact ⟨rfl, hst⟩
  | vstr s₀ => exact ⟨rfl, hst⟩
  | vlist xs => exact ⟨rfl, hst⟩

theorem anonymizeProjects_mono (sem : Sem) (cfg : Config) (st : MState)
    (field? : Option Val) {v : Val} {st' : MState}
    (h : anonymizeProjects sem cfg st field? = some (v, st')) : MonoSt st st' := by
  unfold anonymizeProjects at h
  cases hp : (match field? with | none => Val.vdict [] | some v => safeParse sem.parseLit v) with
  | vdict out =>
      rw [hp] at h
      simp only at h
      cases hit : pyIter ((dlookup out "entries").getD (Val.vlist [])) with
      | none => rw [hit] at h; cases h
      | some entries =>
          rw [hit] at h
          simp only at h
          cases hms : mapEntries (projEntry sem cfg) st entries with
          | none => rw [hms] at h; cases h
          | some q =>
              obtain ⟨ne, st₁⟩ := q
              rw [hms] at h
              simp only [Option.some.injEq, Prod.mk.injEq] at h
              rw [← h.2]
              exact mapEntries_mono (projEntry sem cfg)
                (fun s e => projEntry_mono sem cfg s e) entries st hms
  | vnone => rw [hp] at h; simp only [Option.some.injEq, Prod.mk.injEq] at h; rw [← h.2]; exact monoRefl st
  | vbool b => rw [hp] at h; simp only [Option.some.injEq, Prod.mk.injEq] at h; rw [← h.2]; exact monoRefl st
  | vint n => rw [hp] at h; simp only [Option.some.injEq, Prod.mk.injEq] at h; rw [← h.2]; exact monoRefl st
  | vstr s₀ => rw [hp] at h; simp only [Option.some.injEq, Prod.mk.injEq] at h; rw [← h.2]; exact monoRefl st
  | vlist xs => rw [hp] at h; simp only [Option.some.injEq, Prod.mk.injEq] at h; rw [← h.2]; exact monoRefl st

theorem anonymizeCertifications_congr (sem : Sem) (cfg : Config) (field? : Option Val)
    {s t : MState} (hst : StAgree s t) :
    ORel StAgree (anonymizeCertifications sem cfg s field?)
      (anonymizeCertifications sem cfg t field?) := by
  unfold anonymizeCertifications
  cases hp : (match field? with | none => Val.vdict [] | some v => safeParse sem.parseLit v) with
  | vdict out =>
      simp only
      cases hit : pyIter ((dlookup out "entries").getD (Val.vlist [])) with
      | none => trivial
      | some entries =>
          simp only
          cases hmm : entries.mapM (certEntry sem) with
          | none => trivial
          | some ne => exact ⟨rfl, hst⟩
  | vnone => exact ⟨rfl, hst⟩
  | vbool b => exact ⟨rfl, hst⟩
  | vint n => exact ⟨rfl, hst⟩
  | vstr s₀ => exact ⟨rfl, hst⟩
  | vlist xs => exact ⟨rfl, hst⟩

theorem anonymizeCertifications_mono (sem : Sem) (cfg : Config) (st : MState)
    (field? : Option Val) {v : Val} {st' : MState}
    (h : anonymizeCertifications sem cfg st field? = some (v, st')) : MonoSt st st' := by
  unfold anonymizeCertifications at h
  cases hp : (match field? with | none => Val.vdict [] | some v => safeParse sem.parseLit v) with
  | vdict out =>
      rw [hp] at h
      simp only at h
      cases hit : pyIter ((dlookup out "entries").getD (Val.vlist [])) with
      | none => rw [hit] at h; cases h
      | some entries =>
          rw [hit] at h
          simp only at h
          cases hmm : entries.mapM (certEntry sem) with
          | none => rw [hmm] at h; cases h
          | some ne =>
              rw [hmm] at h
              simp only [Option.some.injEq, Prod.mk.injEq] at h
              rw [← h.2]; exact monoRefl st
  | vnone => rw [hp] at h; simp only [Option.some.injEq, Prod.mk.injEq] at h; rw [← h.2]; exact monoRefl st
  | vbool b => rw [hp] at h; simp only [Option.some.injEq, Prod.mk.injEq] at h; rw [← h.2]; exact monoRefl st
  | vint n => rw [hp] at h; simp only [Option.some.injEq, Prod.mk.injEq] at h; rw [← h.2]; exact monoRefl st
  | vstr s₀ => rw [hp] at h; simp only [Option.some.injEq, Prod.mk.injEq] at h; rw [← h.2]; exact monoRefl st
  | vlist xs => rw [hp] at h; simp only [Option.some.injEq, Prod.mk.injEq] at h; rw [← h.2]; exact monoRefl st

theorem anonymizeSkills_congr (sem : Sem) (cfg : Config) (field? : Option Val)
    {s t : MState} (hst : StAgree s t) :
    ORel StAgree (anonymizeSkills sem cfg s field?)
      (anonymizeSkills sem cfg t field?) := by
  unfold anonymizeSkills
  cases hp : (match field? with | none => Val.vdict [] | some v => safeParse sem.parseLit v) with
  | vdict out =>
      simp only
      have htok := tokenizeTechnologies_congr sem cfg
        (match (dlookup out "technical").getD (Val.vlist []) with
          | Val.vlist xs => xs
          | t₀ => [t₀]) hst
      cases hts : tokenizeTechnologies sem cfg s
          (match (dlookup out "technical").getD (Val.vlist []) with
            | Val.vlist xs => xs
            | t₀ => [t₀]) with
      | none =>
          have htn := ORel_none htok hts
          simp only [hts, htn]
          trivial
      | some q =>
          obtain ⟨toks, s₁⟩ := q
          obtain ⟨toks', t₁, htr, heq, hst₁⟩ := ORel_some htok hts
          subst heq
          simp only [hts, htr]
          exact ⟨rfl, hst₁⟩
  | vnone => exact ⟨rfl, hst⟩
  | vbool b => exact ⟨rfl, hst⟩
  | vint n => exact ⟨rfl, hst⟩
  | vstr s₀ => exact ⟨rfl, hst⟩
  | vlist xs => exact ⟨rfl, hst⟩

theorem anonymizeSkills_mono (sem : Sem) (cfg : Config) (st : MState)
    (field? : Option Val) {v : Val} {st' : MState}
    (h : anonymizeSkills sem cfg st field? = some (v, st')) : MonoSt st st' := by
  unfold anonymizeSkills at h
  cases hp : (match field? with | none => Val.vdict [] | some v => safeParse sem.parseLit v) with
  | vdict out =>
      rw [hp] at h
      simp only at h
      cases hts : tokenizeTechnologies sem cfg st
          (match (dlookup out "technical").getD (Val.vlist []) with
            | Val.vlist xs => xs
            | t₀ => [t₀]) with
      | none => rw [hts] at h; cases h
      | some q =>
          obtain ⟨toks, st₁⟩ := q
          rw [hts] at h
          simp only [Option.some.injEq, Prod.mk.injEq] at h
          rw [← h.2]
          exact tokenizeTechnologies_mono sem cfg _ st hts
  | vnone => rw [hp] at h; simp only [Option.some.injEq, Prod.mk.injEq] at h; rw [← h.2]; exact monoRefl st
  | vbool b => rw [hp] at h; simp only [Option.some.injEq, Prod.mk.injEq] at h; rw [← h.2]; exact monoRefl st
  | vint n => rw [hp] at h; simp only [Option.some.injEq, Prod.mk.injEq] at h; rw [← h.2]; exact monoRefl st
  | vstr s₀ => rw [hp] at h; simp only [Option.some.injEq, Prod.mk.injEq] at h; rw [← h.2]; exact monoRefl st
  | vlist xs => rw [hp] at h; simp only [Option.some.injEq, Prod.mk.injEq] at h; rw [← h.2]; exact monoRefl st

theorem dlookup_dset_eq {α : Type} (m : List (String × α)) (k : String) (v : α) :
    dlookup (dset m k v) k = some v := by
  rw [dlookup_dset, if_pos rfl]

theorem dlookup_dset_ne {α : Type} (m : List (String × α)) (k : String) (v : α)
    (k' : String) (h : k' ≠ k) : dlookup (dset m k v) k' = dlookup m k' := by
  rw [dlookup_dset, if_neg h]

theorem anonymizeRecord_mono (sem : Sem) (cfg : Config) (st : MState)
    (record : List (String × Val)) (df : Option (List String))
    {r : List (String × Val)} {st' : MState}
    (h : anonymizeRecord sem cfg st record df = some (r, st')) : MonoSt st st' := by
  unfold anonymizeRecord at h
  simp only at h
  cases h₁ : anonymizePersonalInfo sem cfg st (dlookup record "personal_info")
      (some (((match df with
        | none => defaultDetectedFields
        | some l => if l.isEmpty then defaultDetectedFields else l).filter
          (fun (f : String) => strStarts f "personal_info")).map
            (fun (f : String) => (pySplit f ".").getLastD f))) with
  | none => rw [h₁] at h; cases h
  | some p₁ =>
      obtain ⟨p, st₁⟩ := p₁
      rw [h₁] at h
      simp only at h
      cases h₂ : anonymizeEducation sem cfg st₁
          (dlookup (dset record "personal_info" p) "education") with
      | none => rw [h₂] at h; cases h
      | some q₂ =>
          obtain ⟨ed, st₂⟩ := q₂
          rw [h₂] at h
          simp only at h
          cases h₃ : anonymizeExperience sem cfg st₂
              (dlookup (dset (dset record "personal_info" p) "education" ed) "experience") with
          | none => rw [h₃] at h; cases h
          | some q₃ =>
              obtain ⟨ex, st₃⟩ := q₃
              rw [h₃] at h
              simp only at h
              cases h₄ : anonymizeProjects sem cfg st₃
                  (dlookup (dset (dset (dset record "personal_info" p) "education" ed)
                    "experience" ex) "projects") with
              | none => rw [h₄] at h; cases h
              | some q₄ =>
                  obtain ⟨pr, st₄⟩ := q₄
                  rw [h₄] at h
                  simp only at h
                  cases h₅ : anonymizeCertifications sem cfg st₄
                      (dlookup (dset (dset (dset (dset record "personal_info" p)
                        "education" ed) "experience" ex) "projects" pr) "certifications") with
                  | none => rw [h₅] at h; cases h
                  | some q₅ =>
                      obtain ⟨ce, st₅⟩ := q₅
                      rw [h₅] at h
                      simp only at h
                      cases h₆ : anonymizeSkills sem cfg st₅
                          (dlookup (dset (dset (dset (dset (dset record "personal_info" p)
                            "education" ed) "experience" ex) "projects" pr)
                            "certifications" ce) "skills") with
                      | none => rw [h₆] at h; cases h
                      | some q₆ =>
                          obtain ⟨sk, st₆⟩ := q₆
                          rw [h₆] at h
                          simp only [Option.some.injEq, Prod.mk.injEq] at h
                          obtain ⟨-, hs⟩ := h
                          subst hs
                          exact monoTrans (monoTrans (monoTrans (monoTrans (monoTrans
                            (personalInfo_mono sem cfg st _ _ h₁)
                            (anonymizeEducation_mono sem cfg st₁ _ h₂))
                            (anonymizeExperience_mono sem cfg st₂ _ h₃))
                            (anonymizeProjects_mono sem cfg st₃ _ h₄))
                            (anonymizeCertifications_mono sem cfg st₄ _ h₅))
                            (anonymizeSkills_mono sem cfg st₅ _ h₆)

theorem record_whitelist_agree (sem : Sem) (cfg : Config) (st : MState)
    (record : List (String × Val)) (l : List String)
    (hwf : wfState st = true) :
    recAgree (anonymizeRecord sem cfg st record (some l))
      (anonymizeRecord sem cfg st record none) := by
  unfold anonymizeRecord
  simp only
  generalize ((if l.isEmpty = true then defaultDetectedFields else l).filter
      (fun (f : String) => strStarts f "personal_info")).map
        (fun (f : String) => (pySplit f ".").getLastD f) = FA
  generalize (defaultDetectedFields.filter
      (fun (f : String) => strStarts f "personal_info")).map
        (fun (f : String) => (pySplit f ".").getLastD f) = FB
  obtain ⟨p₁, s₁, hPa, hAgA, hwA⟩ :=
    personalInfo_wf sem cfg st (dlookup record "personal_info") (some FA) hwf
  obtain ⟨p₂, s₂, hPb, hAgB, hwB⟩ :=
    personalInfo_wf sem cfg st (dlookup record "personal_info") (some FB) hwf
  have hAB : StAgree s₁ s₂ := stAgreeTrans (stAgreeSymm hAgA) hAgB
  simp only [hPa, hPb]
  have heq₁ : dlookup (dset record "personal_info" p₁) "education" =
      dlookup record "education" := dlookup_dset_ne _ _ _ _ (by decide)
  have heq₂ : dlookup (dset record "personal_info" p₂) "education" =
      dlookup record "education" := dlookup_dset_ne _ _ _ _ (by decide)
  rw [heq₁, heq₂]
  have hE := anonymizeEducation_congr sem cfg (dlookup record "education") hAB
  cases hEa : anonymizeEducation sem cfg s₁ (dlookup record "education") with
  | none =>
      have hEb := ORel_none hE hEa
      simp only [hEa, hEb]
      trivial
  | some qe =>
      obtain ⟨ed, s₁'⟩ := qe
      obtain ⟨ed', s₂', hEb, heqe, hAB'⟩ := ORel_some hE hEa
      subst heqe
      simp only [hEa, hEb]
      have hx₁ : dlookup (dset (dset record "personal_info" p₁) "education" ed)
          "experience" = dlookup record "experience" := by
        rw [dlookup_dset_ne _ _ _ _ (by decide), dlookup_dset_ne _ _ _ _ (by decide)]
      have hx₂ : dlookup (dset (dset record "personal_info" p₂) "education" ed)
          "experience" = dlookup record "experience" := by
        rw [dlookup_dset_ne _ _ _ _ (by decide), dlookup_dset_ne _ _ _ _ (by decide)]
      rw [hx₁, hx₂]
      have hX := anonymizeExperience_congr sem cfg (dlookup record "experience") hAB'
      cases hXa : anonymizeExperience sem cfg s₁' (dlookup record "experience") with
      | none =>
          have hXb := ORel_none hX hXa
          simp only [hXa, hXb]
          trivial
      | some qx =>
          obtain ⟨ex, s₁''⟩ := qx
          obtain ⟨ex', s₂'', hXb, heqx, hAB''⟩ := ORel_some hX hXa
          subst heqx
          simp only [hXa, hXb]
          have hp₁ : dlookup (dset (dset (dset record "personal_info" p₁)
              "education" ed) "experience" ex) "projects" =
              dlookup record "projects" := by
            rw [dlookup_dset_ne _ _ _ _ (by decide),
              dlookup_dset_ne _ _ _ _ (by decide), dlookup_dset_ne _ _ _ _ (by decide)]
          have hp₂ : dlookup (dset (dset (dset record "personal_info" p₂)
              "education" ed) "experience" ex) "projects" =
              dlookup record "projects" := by
            rw [dlookup_dset_ne _ _ _ _ (by decide),
              dlookup_dset_ne _ _ _ _ (by decide), dlookup_dset_ne _ _ _ _ (by decide)]
          rw [hp₁, hp₂]
          have hP := anonymizeProjects_congr sem cfg (dlookup record "projects") hAB''
          cases hPra : anonymizeProjects sem cfg s₁'' (dlookup record "projects") with
          | none =>
              have hPrb := ORel_none hP hPra
              simp only [hPra, hPrb]
              trivial
          | some qp =>
              obtain ⟨pr, u₁⟩ := qp
              obtain ⟨pr', u₂, hPrb, heqp, hABp⟩ := ORel_some hP hPra
              subst heqp
              simp only [hPra, hPrb]
              have hc₁ : dlookup (dset (dset (dset (dset record "personal_info" p₁)
                  "education" ed) "experience" ex) "projects" pr) "certifications" =
                  dlookup record "certifications" := by
                rw [dlookup_dset_ne _ _ _ _ (by decide), dlookup_dset_ne _ _ _ _ (by decide),
                  dlookup_dset_ne _ _ _ _ (by decide), dlookup_dset_ne _ _ _ _ (by decide)]
              have hc₂ : dlookup (dset (dset (dset (dset record "personal_info" p₂)
                  "education" ed) "experience" ex) "projects" pr) "certifications" =
                  dlookup record "certifications" := by
                rw [dlookup_dset_ne _ _ _ _ (by decide), dlookup_dset_ne _ _ _ _ (by decide),
                  dlookup_dset_ne _ _ _ _ (by decide), dlookup_dset_ne _ _ _ _ (by decide)]
              rw [hc₁, hc₂]
              have hC := anonymizeCertifications_congr sem cfg
                (dlookup record "certifications") hABp
              cases hCa : anonymizeCertifications sem cfg u₁
                  (dlookup record "certifications") with
              | none =>
                  have hCb := ORel_none hC hCa
                  simp only [hCa, hCb]
                  trivial
              | some qc =>
                  obtain ⟨ce, w₁⟩ := qc
                  obtain ⟨ce', w₂, hCb, heqc, hABc⟩ := ORel_some hC hCa
                  subst heqc
                  simp only [hCa, hCb]
                  have hs₁ : dlookup (dset (dset (dset (dset (dset record
                      "personal_info" p₁) "education" ed) "experience" ex)
                      "projects" pr) "certifications" ce) "skills" =
                      dlookup record "skills" := by
                    rw [dlookup_dset_ne _ _ _ _ (by decide), dlookup_dset_ne _ _ _ _ (by decide),
                      dlookup_dset_ne _ _ _ _ (by decide), dlookup_dset_ne _ _ _ _ (by decide),
                      dlookup_dset_ne _ _ _ _ (by decide)]
                  have hs₂ : dlookup (dset (dset (dset (dset (dset record
                      "personal_info" p₂) "education" ed) "experience" ex)
                      "projects" pr) "certifications" ce) "skills" =
                      dlookup record "skills" := by
                    rw [dlookup_dset_ne _ _ _ _ (by decide), dlookup_dset_ne _ _ _ _ (by decide),
                      dlookup_dset_ne _ _ _ _ (by decide), dlookup_dset_ne _ _ _ _ (by decide),
                      dlookup_dset_ne _ _ _ _ (by decide)]
                  rw [hs₁, hs₂]
                  have hS := anonymizeSkills_congr sem cfg (dlookup record "skills") hABc
                  cases hSa : anonymizeSkills sem cfg w₁ (dlookup record "skills") with
                  | none =>
                      have hSb := ORel_none hS hSa
                      simp only [hSa, hSb]
                      trivial
                  | some qs =>
                      obtain ⟨sk, z₁⟩ := qs
                      obtain ⟨sk', z₂, hSb, heqs, hABs⟩ := ORel_some hS hSa
                      subst heqs
                      simp only [hSa, hSb]
                      by_cases hpre : cfg.preserveNumericFeatures = true
                      · simp only [hpre, if_true]
                        refine ⟨?_, ?_, ?_, ?_, ?_⟩ <;> simp [dlookup_dset]
                      · simp only [hpre, Bool.false_eq_true, if_false]
                        refine ⟨?_, ?_, ?_, ?_, ?_⟩ <;>
                          simp [dlookup_dpop_ne, dlookup_dset]

theorem anonymizeDataset_mono (sem : Sem) (cfg : Config)
    (data : List (List (String × Val))) (st : MState) (df : Option (List String))
    {rs : List (List (String × Val))} {st' : MState}
    (h : anonymizeDataset sem cfg st data df = some (rs, st')) : MonoSt st st' := by
  induction data generalizing st rs with
  | nil =>
      unfold anonymizeDataset at h
      simp only [Option.some.injEq, Prod.mk.injEq] at h
      rw [← h.2]; exact monoRefl st
  | cons r rest ih =>
      unfold anonymizeDataset at h
      cases h₁ : anonymizeRecord sem cfg st r df with
      | none => rw [h₁] at h; cases h
      | some p =>
          obtain ⟨r', st₁⟩ := p
          rw [h₁] at h
          simp only at h
          cases h₂ : anonymizeDataset sem cfg st₁ rest df with
          | none => rw [h₂] at h; cases h
          | some q =>
              obtain ⟨rs₁, st₂⟩ := q
              rw [h₂] at h
              simp only [Option.some.injEq, Prod.mk.injEq] at h
              obtain ⟨-, hs⟩ := h
              subst hs
              exact monoTrans (anonymizeRecord_mono sem cfg st r df h₁) (ih st₁ h₂)

/-! ### Claim theorems -/

/-- Claim C2 (confirmed): in reversible mode, for every category present in
the mapping table and every original whose normalization is non-empty,
two successive get-or-create calls on the same (category, original) pair
return the same token, the second call not even changing the state; and
the mapping table only grows — neither the tokenizer itself nor a
whole-record or whole-dataset operation ever overwrites or removes an
existing (category, original) → token entry. -/
theorem c2_reversible_stable_and_monotone
    (sem : Sem) (cfg : Config) (st : MState)
    (category : String) (original : Val) (pfx : String)
    (m : List (String × String))
    (hrev : cfg.reversible = true)
    (hne : pyStrip (pyStr original) ≠ "")
    (hcat : dlookup st.mapping category = some m) :
    (∃ tok st₁,
        getOrCreateToken sem cfg st category original pfx = some (tok, st₁) ∧
        getOrCreateToken sem cfg st₁ category original pfx = some (tok, st₁) ∧
        MonoSt st st₁) ∧
    (∀ record df r st', anonymizeRecord sem cfg st record df = some (r, st') →
        MonoSt st st') ∧
    (∀ data df rs st', anonymizeDataset sem cfg st data df = some (rs, st') →
        MonoSt st st') := by
  refine ⟨?_, fun record df r st' h => anonymizeRecord_mono sem cfg st record df h,
    fun data df rs st' h => anonymizeDataset_mono sem cfg data st df h⟩
  cases hfd : dlookup m (pyStrip (pyStr original)) with
  | some tok =>
      have he : getOrCreateToken sem cfg st category original pfx = some (tok, st) := by
        unfold getOrCreateToken
        simp [hne, hrev, hcat, hfd]
      exact ⟨tok, st, he, he, monoRefl st⟩
  | none =>
      have he₁ : getOrCreateToken sem cfg st category original pfx =
          some (pfx ++ "_" ++ pyTake (hashText sem (pyStrip (pyStr original)) cfg.salt) 12,
            MState.mk
              (dset st.mapping category (dset m (pyStrip (pyStr original))
                (pfx ++ "_" ++ pyTake (hashText sem (pyStrip (pyStr original)) cfg.salt) 12)))
              st.counters) := by
        unfold getOrCreateToken
        simp [hne, hrev, hcat, hfd]
      refine ⟨_, _, he₁, ?_, got_mono _ _ _ _ _ _ _ _ he₁⟩
      unfold getOrCreateToken
      simp [hne, hrev, dlookup_dset_eq]

/-- Claim C3 (confirmed): with a fixed salt and id prefix, in
non-reversible mode the name, email and location maskers are
deterministic functions of the configuration and the input only: they
never touch the mutable state, and two calls on any two states of the
same configuration — the same instance twice, or two freshly constructed
instances — return the same output. -/
theorem c3_nonreversible_hash_stable
    (sem : Sem) (cfg : Config) (s t : MState) (v : Val)
    (hrev : cfg.reversible = false) :
    (∃ o, anonymizeName sem cfg s v = some (o, s) ∧
          anonymizeName sem cfg t v = some (o, t)) ∧
    (∃ o, maskEmail sem cfg s v = some (o, s) ∧
          maskEmail sem cfg t v = some (o, t)) ∧
    (∃ o, anonymizeLocation sem cfg s v = some (o, s) ∧
          anonymizeLocation sem cfg t v = some (o, t)) := by
  refine ⟨?_, ?_, ?_⟩
  · by_cases hn : pyStrip (pyStr v) = ""
    · exact ⟨"", by simp [anonymizeName, hn], by simp [anonymizeName, hn]⟩
    · exact ⟨cfg.idPfx ++ pyTake (hashText sem (pyStrip (pyStr v)) cfg.salt) 8,
        by simp [anonymizeName, hn, hrev], by simp [anonymizeName, hn, hrev]⟩
  · by_cases hat : strHasSub (pyStr v) "@"
    · exact ⟨"anon+" ++ pyTake (hashText sem ((pySplit (pyStr v) "@").headD "") cfg.salt) 8 ++
        "@" ++ (((pySplit (pyJoin "@" (pySplit (pyStr v) "@").tail) ".").getLastD
          (pyJoin "@" (pySplit (pyStr v) "@").tail))) ++ ".example",
        by simp [maskEmail, hat, hrev], by simp [maskEmail, hat, hrev]⟩
    · exact ⟨"anon@example.com",
        by simp [maskEmail, hat], by simp [maskEmail, hat]⟩
  · by_cases hn : pyStrip (pyStr v) = ""
    · exact ⟨"UNKNOWN", by simp [anonymizeLocation, hn], by simp [anonymizeLocation, hn]⟩
    · exact ⟨pyUpper (if strHasSub (pyLower (pyStrip (pyStr v))) "remote" then "remote"
        else "onsite") ++ "_" ++ pyTake (hashText sem (pyStrip (pyStr v)) cfg.salt) 8,
        by simp [anonymizeLocation, hn, hrev], by simp [anonymizeLocation, hn, hrev]⟩

/-- Claim C1 (corrected): in non-reversible mode the Entity Tokenizer is
counter-based for university and company strings — each call with a
non-empty normalized original increments the counter keyed by the prefix
and returns "<prefix>_" + counter value, ignoring the original, so two
calls on the same original give two different tokens — but technology
strings do not pass through the Entity Tokenizer in non-reversible mode:
`_tokenize_technologies` hashes them, so the same technology twice
yields the SAME token, with the state untouched. -/
theorem c1_nonreversible_counter_tokens
    (sem : Sem) (cfg : Config) (st : MState)
    (category : String) (original : Val) (pfx : String)
    (hrev : cfg.reversible = false)
    (hne : pyStrip (pyStr original) ≠ "") :
    (∃ k st₁ st₂,
        getOrCreateToken sem cfg st category original pfx =
          some (pfx ++ "_" ++ toString (k + 1), st₁) ∧
        getOrCreateToken sem cfg st₁ category original pfx =
          some (pfx ++ "_" ++ toString (k + 2), st₂) ∧
        pfx ++ "_" ++ toString (k + 1) ≠ pfx ++ "_" ++ toString (k + 2)) ∧
    (∀ original₂, pyStrip (pyStr original₂) ≠ "" →
        getOrCreateToken sem cfg st category original pfx =
        getOrCreateToken sem cfg st category original₂ pfx) ∧
    (∀ tv, pyLower (pyStrip (pyStr tv)) ≠ "" →
        ∃ tok, tokenizeTechnologies sem cfg st [tv, tv] = some ([tok, tok], st)) := by
  refine ⟨?_, ?_, ?_⟩
  · refine ⟨(dlookup st.counters pfx).getD 0,
      MState.mk st.mapping (dset st.counters pfx ((dlookup st.counters pfx).getD 0 + 1)),
      MState.mk st.mapping (dset (dset st.counters pfx
        ((dlookup st.counters pfx).getD 0 + 1)) pfx
        ((dlookup st.counters pfx).getD 0 + 2)), ?_, ?_, ?_⟩
    · unfold getOrCreateToken
      simp [hne, hrev]
    · unfold getOrCreateToken
      simp [hne, hrev, dlookup_dset_eq]
    · intro hcontra
      have h₁ := string_append_right_inj (pfx ++ "_")
        (by simpa [String.append_assoc] using hcontra)
      have h₂ := natToString_inj h₁
      omega
  · intro original₂ hne₂
    unfold getOrCreateToken
    simp [hne, hne₂, hrev]
  · intro tv htv
    refine ⟨"TECH_" ++ pyTake (hashText sem (pyLower (pyStrip (pyStr tv))) cfg.salt) 6, ?_⟩
    unfold tokenizeTechnologies
    simp only [htv, if_false, if_neg, not_false_iff, hrev, Bool.false_eq_true]
    unfold tokenizeTechnologies
    simp only [htv, if_false, if_neg, not_false_iff, hrev, Bool.false_eq_true]
    unfold tokenizeTechnologies
    simp

/-- Witness for C1: the university category from the initial state, and
the technology "python" tokenized twice. -/
theorem c1_witness :
    cfgNR.reversible = false ∧ pyStrip (pyStr (Val.vstr "MIT")) ≠ "" ∧
    ((∃ k st₁ st₂,
        getOrCreateToken sem₀ cfgNR initMState "university" (Val.vstr "MIT") "UNIV" =
          some ("UNIV" ++ "_" ++ toString (k + 1), st₁) ∧
        getOrCreateToken sem₀ cfgNR st₁ "university" (Val.vstr "MIT") "UNIV" =
          some ("UNIV" ++ "_" ++ toString (k + 2), st₂) ∧
        "UNIV" ++ "_" ++ toString (k + 1) ≠ "UNIV" ++ "_" ++ toString (k + 2)) ∧
     (∀ original₂, pyStrip (pyStr original₂) ≠ "" →
        getOrCreateToken sem₀ cfgNR initMState "university" (Val.vstr "MIT") "UNIV" =
        getOrCreateToken sem₀ cfgNR initMState "university" original₂ "UNIV") ∧
     (∀ tv, pyLower (pyStrip (pyStr tv)) ≠ "" →
        ∃ tok, tokenizeTechnologies sem₀ cfgNR initMState [tv, tv] =
          some ([tok, tok], initMState))) :=
  ⟨rfl, by decide, c1_nonreversible_counter_tokens sem₀ cfgNR initMState
    "university" (Val.vstr "MIT") "UNIV" rfl (by decide)⟩

/-- Witness for C2: the university category from the initial state. -/
theorem c2_witness :
    cfgR.reversible = true ∧ pyStrip (pyStr (Val.vstr "MIT")) ≠ "" ∧
    dlookup initMState.mapping "university" = some [] ∧
    ((∃ tok st₁,
        getOrCreateToken sem₀ cfgR initMState "university" (Val.vstr "MIT") "UNIV" =
          some (tok, st₁) ∧
        getOrCreateToken sem₀ cfgR st₁ "university" (Val.vstr "MIT") "UNIV" =
          some (tok, st₁) ∧
        MonoSt initMState st₁) ∧
     (∀ record df r st', anonymizeRecord sem₀ cfgR initMState record df = some (r, st') →
        MonoSt initMState st') ∧
     (∀ data df rs st', anonymizeDataset sem₀ cfgR initMState data df = some (rs, st') →
        MonoSt initMState st')) :=
  ⟨rfl, by decide, rfl, c2_reversible_stable_and_monotone sem₀ cfgR initMState
    "university" (Val.vstr "MIT") "UNIV" [] rfl (by decide) rfl⟩

/-- Witness for C3: the name "barjraj" masked from two different states
(a fresh instance and an instance with prior state). -/
theorem c3_witness :
    cfgNR.reversible = false ∧
    ((∃ o, anonymizeName sem₀ cfgNR initMState (Val.vstr "barjraj") = some (o, initMState) ∧
           anonymizeName sem₀ cfgNR stAlt (Val.vstr "barjraj") = some (o, stAlt)) ∧
     (∃ o, maskEmail sem₀ cfgNR initMState (Val.vstr "barjraj") = some (o, initMState) ∧
           maskEmail sem₀ cfgNR stAlt (Val.vstr "barjraj") = some (o, stAlt)) ∧
     (∃ o, anonymizeLocation sem₀ cfgNR initMState (Val.vstr "barjraj") =
             some (o, initMState) ∧
           anonymizeLocation sem₀ cfgNR stAlt (Val.vstr "barjraj") = some (o, stAlt))) :=
  ⟨rfl, c3_nonreversible_hash_stable sem₀ cfgNR initMState stAlt (Val.vstr "barjraj") rfl⟩

/-- Counterexample for C1 as frozen: in non-reversible mode the same
technology string "python" tokenized twice in one batch yields IDENTICAL
tokens, not two different ones. -/
theorem c1_counterexample :
    (tokenizeTechnologies sem₀ cfgNR initMState
      [Val.vstr "python", Val.vstr "python"]).map Prod.fst =
      some ["TECH_python", "TECH_python"] ∧
    ∀ a b : String,
      (tokenizeTechnologies sem₀ cfgNR initMState
        [Val.vstr "python", Val.vstr "python"]).map Prod.fst = some [a, b] → a = b := by
  have hval : (tokenizeTechnologies sem₀ cfgNR initMState
      [Val.vstr "python", Val.vstr "python"]).map Prod.fst =
      some ["TECH_python", "TECH_python"] := rfl
  refine ⟨hval, fun a b h => ?_⟩
  rw [hval] at h
  simp only [Option.some.injEq, List.cons.injEq] at h
  rw [← h.1, ← h.2.1]

/-- Claim C6 (corrected): inputs lacking an "@" get the fixed literal
anon@example.com in BOTH modes — the no-@ check precedes the reversible
check — while in reversible mode every input CONTAINING "@" is masked as
an Entity Tokenizer token (prefix EMAIL, category email, original the
full address) followed by "@example.com". -/
theorem c6_email_masker_modes (sem : Sem) (cfg : Config) (st : MState) (v : Val) :
    (strHasSub (pyStr v) "@" = false →
      maskEmail sem cfg st v = some ("anon@example.com", st)) ∧
    (cfg.reversible = true → strHasSub (pyStr v) "@" = true →
      ∀ tok st',
        getOrCreateToken sem cfg st "email" (Val.vstr (pyStr v)) "EMAIL" =
          some (tok, st') →
        maskEmail sem cfg st v = some (tok ++ "@example.com", st')) := by
  constructor
  · intro hat
    unfold maskEmail
    simp [hat]
  · intro hrev hat tok st' hg
    unfold maskEmail
    simp [hat, hrev, hg]

/-- Counterexample for C6 as frozen: in reversible mode the input
"nodomain" (no "@") is masked to the literal anon@example.com, not to an
EMAIL-prefixed Entity Tokenizer token. -/
theorem c6_counterexample :
    cfgR.reversible = true ∧
    maskEmail sem₀ cfgR initMState (Val.vstr "nodomain") =
      some ("anon@example.com", initMState) ∧
    strStarts "anon@example.com" "EMAIL" = false :=
  ⟨rfl, rfl, rfl⟩

/-- Witness for C6: the address "a@b.com" in reversible mode. -/
theorem c6_witness :
    cfgR.reversible = true ∧
    strHasSub (pyStr (Val.vstr "a@b.com")) "@" = true ∧
    getOrCreateToken sem₀ cfgR initMState "email" (Val.vstr (pyStr (Val.vstr "a@b.com")))
        "EMAIL" =
      some ("EMAIL_a@b.com",
        MState.mk [("name", []), ("email", [("a@b.com", "EMAIL_a@b.com")]),
          ("phone", []), ("university", []), ("company", []), ("technology", []),
          ("project_title", []), ("location", [])] initMState.counters) ∧
    maskEmail sem₀ cfgR initMState (Val.vstr "a@b.com") =
      some ("EMAIL_a@b.com" ++ "@example.com",
        MState.mk [("name", []), ("email", [("a@b.com", "EMAIL_a@b.com")]),
          ("phone", []), ("university", []), ("company", []), ("technology", []),
          ("project_title", []), ("location", [])] initMState.counters) :=
  ⟨rfl, rfl, rfl,
    (c6_email_masker_modes sem₀ cfgR initMState (Val.vstr "a@b.com")).2 rfl rfl _ _ rfl⟩

/-- Claim C7 (confirmed): `safe_parse` returns the parsed structure when
the literal parser succeeds, the original string unchanged when it
raises, and passes every non-string through unchanged (as a total Lean
function it cannot raise); and each of the six section anonymizers
returns the empty mapping whenever its section value does not normalize
to a mapping. -/
theorem c7_safe_parse_total (p : String → Option Val) (s : String) (v : Val)
    (sem : Sem) (cfg : Config) (st : MState) (ftm : Option (List String)) :
    (∀ r, p s = some r → safeParse p (Val.vstr s) = r) ∧
    (p s = none → safeParse p (Val.vstr s) = Val.vstr s) ∧
    ((∀ u, v ≠ Val.vstr u) → safeParse p v = v) ∧
    ((∀ kvs, safeParse sem.parseLit v ≠ Val.vdict kvs) →
      anonymizePersonalInfo sem cfg st (some v) ftm = some (Val.vdict [], st) ∧
      anonymizeEducation sem cfg st (some v) = some (Val.vdict [], st) ∧
      anonymizeExperience sem cfg st (some v) = some (Val.vdict [], st) ∧
      anonymizeProjects sem cfg st (some v) = some (Val.vdict [], st) ∧
      anonymizeCertifications sem cfg st (some v) = some (Val.vdict [], st) ∧
      anonymizeSkills sem cfg st (some v) = some (Val.vdict [], st)) := by
  refine ⟨?_, ?_, ?_, ?_⟩
  · intro r hr
    simp [safeParse, hr]
  · intro hn
    simp [safeParse, hn]
  · intro hv
    cases v with
    | vstr u => exact absurd rfl (hv u)
    | vnone => rfl
    | vbool b => rfl
    | vint n => rfl
    | vlist xs => rfl
    | vdict kvs => rfl
  · intro hnd
    cases hv : safeParse sem.parseLit v with
    | vdict kvs => exact absurd hv (hnd kvs)
    | vnone =>
        refine ⟨?_, ?_, ?_, ?_, ?_, ?_⟩ <;>
          simp [anonymizePersonalInfo, anonymizeEducation, anonymizeExperience,
            anonymizeProjects, anonymizeCertifications, anonymizeSkills, hv]
    | vbool b =>
        refine ⟨?_, ?_, ?_, ?_, ?_, ?_⟩ <;>
          simp [anonymizePersonalInfo, anonymizeEducation, anonymizeExperience,
            anonymizeProjects, anonymizeCertifications, anonymizeSkills, hv]
    | vint n =>
        refine ⟨?_, ?_, ?_, ?_, ?_, ?_⟩ <;>
          simp [anonymizePersonalInfo, anonymizeEducation, anonymizeExperience,
            anonymizeProjects, anonymizeCertifications, anonymizeSkills, hv]
    | vstr u =>
        refine ⟨?_, ?_, ?_, ?_, ?_, ?_⟩ <;>
          simp [anonymizePersonalInfo, anonymizeEducation, anonymizeExperience,
            anonymizeProjects, anonymizeCertifications, anonymizeSkills, hv]
    | vlist xs =>
        refine ⟨?_, ?_, ?_, ?_, ?_, ?_⟩ <;>
          simp [anonymizePersonalInfo, anonymizeEducation, anonymizeExperience,
            anonymizeProjects, anonymizeCertifications, anonymizeSkills, hv]

/-- Witness for C7: a failing parse on "x" and the non-mapping section
value 5. -/
theorem c7_witness :
    sem₀.parseLit "x" = none ∧
    safeParse sem₀.parseLit (Val.vstr "x") = Val.vstr "x" ∧
    (∀ u, Val.vint 5 ≠ Val.vstr u) ∧
    safeParse sem₀.parseLit (Val.vint 5) = Val.vint 5 ∧
    (∀ kvs, safeParse sem₀.parseLit (Val.vint 5) ≠ Val.vdict kvs) ∧
    anonymizeEducation sem₀ cfgNR initMState (some (Val.vint 5)) =
      some (Val.vdict [], initMState) := by
  have h := c7_safe_parse_total sem₀.parseLit "x" (Val.vint 5) sem₀ cfgNR initMState none
  exact ⟨rfl, h.2.1 rfl, fun u hu => Val.noConfusion hu,
    h.2.2.1 (fun u hu => Val.noConfusion hu),
    fun kvs hk => Val.noConfusion hk,
    (h.2.2.2 (fun kvs hk => Val.noConfusion hk)).2.1⟩

/-- Claim C8 (confirmed): any age whose Python int conversion succeeds
is mapped to exactly one of the four buckets — at most 25 to 18-25, 26
through 35 to 26-35, 36 through 45 to 36-45, 46 and above to 46+ — and
any input whose conversion raises is mapped to UNKNOWN; the
personal-info anonymizer applies exactly this bucketing to a whitelisted
age field; in particular 0 and 25 give 18-25, 26 gives 26-35, 45 gives
36-45 and 46 gives 46+. -/
theorem c8_age_buckets (sem : Sem) (cfg : Config) (st : MState) (v : Val) (n : Int) :
    (pyToInt v = some n →
      maskAgeVal v = Val.vstr (if n ≤ 25 then "18-25" else if n ≤ 35 then "26-35"
        else if n ≤ 45 then "36-45" else "46+") ∧
      (n ≤ 25 → maskAgeVal v = Val.vstr "18-25") ∧
      (26 ≤ n → n ≤ 35 → maskAgeVal v = Val.vstr "26-35") ∧
      (36 ≤ n → n ≤ 45 → maskAgeVal v = Val.vstr "36-45") ∧
      (46 ≤ n → maskAgeVal v = Val.vstr "46+")) ∧
    (pyToInt v = none → maskAgeVal v = Val.vstr "UNKNOWN") ∧
    anonymizePersonalInfo sem cfg st (some (Val.vdict [("age", v)])) (some ["age"]) =
      some (Val.vdict [("age", maskAgeVal v)], st) ∧
    (maskAgeVal (Val.vint 0) = Val.vstr "18-25" ∧
     maskAgeVal (Val.vint 25) = Val.vstr "18-25" ∧
     maskAgeVal (Val.vint 26) = Val.vstr "26-35" ∧
     maskAgeVal (Val.vint 45) = Val.vstr "36-45" ∧
     maskAgeVal (Val.vint 46) = Val.vstr "46+") := by
  refine ⟨?_, ?_, ?_, rfl, rfl, rfl, rfl, rfl⟩
  · intro hv
    refine ⟨by simp [maskAgeVal, hv], ?_, ?_, ?_, ?_⟩
    · intro h25
      simp [maskAgeVal, hv, h25]
    · intro h26 h35
      have h1 : ¬ n ≤ 25 := by omega
      simp [maskAgeVal, hv, h1, h35]
    · intro h36 h45
      have h1 : ¬ n ≤ 25 := by omega
      have h2 : ¬ n ≤ 35 := by omega
      simp [maskAgeVal, hv, h1, h2, h45]
    · intro h46
      have h1 : ¬ n ≤ 25 := by omega
      have h2 : ¬ n ≤ 35 := by omega
      have h3 : ¬ n ≤ 45 := by omega
      simp [maskAgeVal, hv, h1, h2, h3]
  · intro hv
    simp [maskAgeVal, hv]
  · simp [anonymizePersonalInfo, safeParse, piName, piEmail, piPhone, piAge,
      piGender, piLocation, dmem, dlookup, dset]

/-- Witness for C8: the age 28 given as the string "28". -/
theorem c8_witness :
    pyToInt (Val.vstr "28") = some 28 ∧
    maskAgeVal (Val.vstr "28") = Val.vstr "26-35" ∧
    anonymizePersonalInfo sem₀ cfgNR initMState
        (some (Val.vdict [("age", Val.vstr "28")])) (some ["age"]) =
      some (Val.vdict [("age", maskAgeVal (Val.vstr "28"))], initMState) := by
  have h := c8_age_buckets sem₀ cfgNR initMState (Val.vstr "28") 28
  exact ⟨rfl, (h.1 rfl).2.2.1 (by omega) (by omega), h.2.2.1⟩

/-- Claim C9 (confirmed): in non-reversible mode phone masking first
extracts the digit characters of the input; with at least 4 digits it
returns one X per masked digit followed by the last 4 digits, otherwise
X repeated max(3, digit count) times; in particular the 12 digits
918489438044 give XXXXXXXX8044 and the 2 digits 12 give XXX. -/
theorem c9_phone_masking (sem : Sem) (cfg : Config) (st : MState) (v : Val)
    (hrev : cfg.reversible = false) :
    (4 ≤ ((pyStr v).toList.filter Char.isDigit).length →
      maskPhone sem cfg st v =
        some (String.mk
          (List.replicate (((pyStr v).toList.filter Char.isDigit).length - 4) 'X' ++
            ((pyStr v).toList.filter Char.isDigit).drop
              (((pyStr v).toList.filter Char.isDigit).length - 4)), st)) ∧
    (((pyStr v).toList.filter Char.isDigit).length < 4 →
      maskPhone sem cfg st v =
        some (String.mk
          (List.replicate (max 3 ((pyStr v).toList.filter Char.isDigit).length) 'X'),
          st)) ∧
    maskPhone sem cfg st (Val.vstr "918489438044") = some ("XXXXXXXX8044", st) ∧
    maskPhone sem cfg st (Val.vstr "12") = some ("XXX", st) := by
  refine ⟨?_, ?_, ?_, ?_⟩
  · intro h4
    have h4' : 4 ≤ (List.filter Char.isDigit (pyStr v).data).length := h4
    unfold maskPhone
    simp [hrev, ge_iff_le, h4']
  · intro hlt
    have h4 : ¬ 4 ≤ ((pyStr v).toList.filter Char.isDigit).length := by omega
    have h4' : ¬ 4 ≤ (List.filter Char.isDigit (pyStr v).data).length := h4
    unfold maskPhone
    simp [hrev, ge_iff_le, h4']
  · unfold maskPhone
    rw [hrev]
    rfl
  · unfold maskPhone
    rw [hrev]
    rfl

/-- Witness for C9: the two documented inputs under the default
non-reversible configuration. -/
theorem c9_witness :
    cfgNR.reversible = false ∧
    4 ≤ ((pyStr (Val.vstr "918489438044")).toList.filter Char.isDigit).length ∧
    maskPhone sem₀ cfgNR initMState (Val.vstr "918489438044") =
      some ("XXXXXXXX8044", initMState) ∧
    maskPhone sem₀ cfgNR initMState (Val.vstr "12") = some ("XXX", initMState) := by
  have h := c9_phone_masking sem₀ cfgNR initMState (Val.vstr "918489438044") rfl
  exact ⟨rfl, by decide, h.2.2.1, h.2.2.2⟩

/-- Claim C4 (corrected): with numeric preservation enabled, the
top-level key set of the output of `anonymize_record` is the input key
set UNION the six section keys — the six section assignments
unconditionally add any section key absent from the input, and no other
key is added or removed — rather than always equalling the input key
set. -/
theorem c4_key_shape (sem : Sem) (cfg : Config) (st : MState)
    (record : List (String × Val)) (df : Option (List String))
    (hpre : cfg.preserveNumericFeatures = true)
    {r : List (String × Val)} {st' : MState}
    (h : anonymizeRecord sem cfg st record df = some (r, st')) :
    ∀ k, dmem r k = true ↔ (dmem record k = true ∨ k ∈ sectionKeys) := by
  unfold anonymizeRecord at h
  simp only at h
  cases h₁ : anonymizePersonalInfo sem cfg st (dlookup record "personal_info")
      (some (((match df with
        | none => defaultDetectedFields
        | some l => if l.isEmpty then defaultDetectedFields else l).filter
          (fun (f : String) => strStarts f "personal_info")).map
            (fun (f : String) => (pySplit f ".").getLastD f))) with
  | none => rw [h₁] at h; cases h
  | some p₁ =>
      obtain ⟨p, st₁⟩ := p₁
      rw [h₁] at h
      simp only at h
      cases h₂ : anonymizeEducation sem cfg st₁
          (dlookup (dset record "personal_info" p) "education") with
      | none => rw [h₂] at h; cases h
      | some q₂ =>
          obtain ⟨ed, st₂⟩ := q₂
          rw [h₂] at h
          simp only at h
          cases h₃ : anonymizeExperience sem cfg st₂
              (dlookup (dset (dset record "personal_info" p) "education" ed)
                "experience") with
          | none => rw [h₃] at h; cases h
          | some q₃ =>
              obtain ⟨ex, st₃⟩ := q₃
              rw [h₃] at h
              simp only at h
              cases h₄ : anonymizeProjects sem cfg st₃
                  (dlookup (dset (dset (dset record "personal_info" p) "education" ed)
                    "experience" ex) "projects") with
              | none => rw [h₄] at h; cases h
              | some q₄ =>
                  obtain ⟨pr, st₄⟩ := q₄
                  rw [h₄] at h
                  simp only at h
                  cases h₅ : anonymizeCertifications sem cfg st₄
                      (dlookup (dset (dset (dset (dset record "personal_info" p)
                        "education" ed) "experience" ex) "projects" pr)
                        "certifications") with
                  | none => rw [h₅] at h; cases h
                  | some q₅ =>
                      obtain ⟨ce, st₅⟩ := q₅
                      rw [h₅] at h
                      simp only at h
                      cases h₆ : anonymizeSkills sem cfg st₅
                          (dlookup (dset (dset (dset (dset (dset record
                            "personal_info" p) "education" ed) "experience" ex)
                            "projects" pr) "certifications" ce) "skills") with
                      | none => rw [h₆] at h; cases h
                      | some q₆ =>
                          obtain ⟨sk, st₆⟩ := q₆
                          rw [h₆] at h
                          simp only [hpre, if_true, Option.some.injEq,
                            Prod.mk.injEq] at h
                          obtain ⟨hr, -⟩ := h
                          subst hr
                          intro k
                          simp only [dmem_dset, Bool.or_eq_true,
                            decide_eq_true_eq, sectionKeys, List.mem_cons,
                            List.not_mem_nil, or_false]
                          tauto

/-- Counterexample for C4 as frozen: anonymizing the empty record adds
the key "education" (and the other five section keys), so the output
shape is not identical to the input shape. -/
theorem c4_counterexample :
    cfgNR.preserveNumericFeatures = true ∧
    (anonymizeRecord sem₀ cfgNR initMState [] none).map
      (fun p => dmem p.1 "education") = some true ∧
    dmem ([] : List (String × Val)) "education" = false :=
  ⟨rfl, rfl, rfl⟩

/-- Witness for C4: the empty record under the default non-reversible
configuration. -/
theorem c4_witness :
    cfgNR.preserveNumericFeatures = true ∧
    anonymizeRecord sem₀ cfgNR initMState [] none =
      some ([("personal_info", Val.vdict []),
        ("education", Val.vdict [("entries", Val.vlist [])]),
        ("experience", Val.vdict [("entries", Val.vlist [])]),
        ("projects", Val.vdict [("entries", Val.vlist [])]),
        ("certifications", Val.vdict [("entries", Val.vlist [])]),
        ("skills", Val.vdict [("technical", Val.vlist []), ("soft", Val.vlist [])])],
        initMState) ∧
    (dmem [("personal_info", Val.vdict []),
        ("education", Val.vdict [("entries", Val.vlist [])]),
        ("experience", Val.vdict [("entries", Val.vlist [])]),
        ("projects", Val.vdict [("entries", Val.vlist [])]),
        ("certifications", Val.vdict [("entries", Val.vlist [])]),
        ("skills", Val.vdict [("technical", Val.vlist []), ("soft", Val.vlist [])])]
      "education" = true ↔
      (dmem ([] : List (String × Val)) "education" = true ∨ "education" ∈ sectionKeys)) :=
  ⟨rfl, rfl, c4_key_shape sem₀ cfgNR initMState [] none rfl rfl "education"⟩

/-- Claim C5 (confirmed): for every record and every whitelist, only the
personal_info entries of the whitelist matter — the education,
experience, projects, certifications and skills sections of the output
agree with the sections produced under the default whitelist (or the two
runs raise identically). -/
theorem c5_whitelist_gates_only_personal (sem : Sem) (cfg : Config) (st : MState)
    (record : List (String × Val)) (l : List String)
    (hwf : wfState st = true) :
    recAgree (anonymizeRecord sem cfg st record (some l))
      (anonymizeRecord sem cfg st record none) :=
  record_whitelist_agree sem cfg st record l hwf

/-- Witness for C5: a whitelist naming only experience.company versus
the default whitelist, on the empty record from the initial state. -/
theorem c5_witness :
    wfState initMState = true ∧
    recAgree (anonymizeRecord sem₀ cfgNR initMState [] (some ["experience.company"]))
      (anonymizeRecord sem₀ cfgNR initMState [] none) :=
  ⟨rfl, c5_whitelist_gates_only_personal sem₀ cfgNR initMState []
    ["experience.company"] rfl⟩
